import Mathlib

/-!
Verification development for the static test-case generator of the
`js-validator` repository.  The definitions below are a shallow embedding of
`src/testcaseGenerator/jsParser.js` (class `JSParser`): the data the parser
manipulates (JavaScript-like runtime values, the binding table
`variableValues`, the fact streams) and its operations (`resolveExpression`,
`isVariableHoistedInCode`, `parseComments`, the traversal visitors, and
`generateTests`).  The external Babel parser is out of scope; a source file is
therefore modelled by its list of raw text lines together with the syntax tree
Babel would hand back (or a parse error).

Modelling conventions:
* JavaScript numbers are modelled by `ℚ`; the claims under study only
  exercise integral values, on which `ℚ` and IEEE doubles agree.  The
  non-finite results `NaN` and `Infinity` are collapsed into the single
  marker `Value.nan` (no claim distinguishes them).
* Machine strings are Lean `String`s; the sources only use ASCII.
* Fallible JavaScript steps (property access on `undefined` or `null`, as
  performed by `prop.key.name` on a spread property and by `el.type` on the
  `null` hole element of a sparse array literal) are modelled with
  `Except JsError`.
-/

set_option maxRecDepth 10000
set_option maxHeartbeats 1000000

mutual

/-- A JavaScript runtime value as the static evaluator can produce it:
number, string, boolean, `null`, `undefined`, array, plain object
(association list of fields in insertion order), or a raw syntax-tree node
(the declaration visitor's array branch stores unrecognized element nodes
unchanged: `return el; // For complex elements, keep the AST node`).
`nan` marks a non-finite numeric result. -/
inductive Value where
  | num (q : ℚ)
  | nan
  | str (s : String)
  | bool (b : Bool)
  | null
  | undef
  | arr (elems : List Value)
  | obj (fields : List (String × Value))
  | astNode (node : Expr)

/-- The syntax-tree expression nodes the static evaluator dispatches on
(Babel node kinds: `Identifier`, the four literal kinds, `ArrayExpression`,
`ObjectExpression`, `UnaryExpression`, `LogicalExpression`,
`ParenthesizedExpression`, `ConditionalExpression`, `BinaryExpression`,
`MemberExpression`, `CallExpression`).  `unknown` stands for any node kind
outside this list (the resolver's fall-through case).  An `ArrayExpression`
node's `elements` array holds `Node | null` in the syntax tree — a sparse
array literal such as `[1, , 2]` has a `null` element for the hole — so
`arrayE` carries `Option Expr` elements, `none` being a hole. -/
inductive Expr where
  | ident (name : String)
  | numLit (q : ℚ)
  | strLit (s : String)
  | boolLit (b : Bool)
  | nullLit
  | arrayE (elems : List (Option Expr))
  | objectE (props : List PropEntry)
  | unary (op : String) (arg : Expr)
  | logical (op : String) (l : Expr) (r : Expr)
  | paren (e : Expr)
  | condE (test : Expr) (cons : Expr) (alt : Expr)
  | binary (op : String) (l : Expr) (r : Expr)
  | member (obj : Expr) (prop : Expr)
  | call (callee : Expr) (args : List Expr)
  | unknown (kind : String)

/-- A property of an `ObjectExpression`: either an `ObjectProperty`, whose
`key` node carries a `.name` exactly when it is an identifier (so `none`
models a computed or literal key, which JavaScript then records under the
key `"undefined"`), or a `SpreadElement`, which has no `key` node at
all. -/
inductive PropEntry where
  | field (key : Option String) (value : Expr)
  | spread (arg : Expr)

end

/-- A thrown JavaScript runtime exception (`TypeError` etc.), carrying its
message. -/
inductive JsError where
  | typeError (msg : String)
deriving DecidableEq, Repr

/-- Digits of the fractional part of `rem / den`, at most `fuel` digits
(JavaScript prints at most 17 significant digits; the claims only exercise
values whose expansion is exact and short). -/
def fracDigits : Nat → Nat → Nat → List Char
  | 0, _, _ => []
  | _, _, 0 => []
  | fuel + 1, rem, den =>
    if rem = 0 then []
    else
      let rem10 := rem * 10
      Char.ofNat (48 + (rem10 / den) % 10) :: fracDigits fuel (rem10 % den) den

/-- JavaScript `String(n)` for a finite number: exact for integers (the only
case the claims exercise); non-integral values print integer part, a dot and
the (possibly truncated) decimal expansion. -/
def numToStr (q : ℚ) : String :=
  let sign := if q < 0 then "-" else ""
  let a : Nat := q.num.natAbs
  let d : Nat := q.den
  let ip : Nat := a / d
  let rem : Nat := a % d
  if rem = 0 then sign ++ toString ip
  else sign ++ toString ip ++ "." ++ String.mk (fracDigits 17 rem d)

/-- Whitespace as JavaScript's `\s` sees it (ASCII subset; the sources are
ASCII). -/
def wsChar (c : Char) : Bool :=
  c = ' ' || c = '\t' || c = '\n' || c = '\r' || c = '\x0b' || c = '\x0c'

/-- Word characters as JavaScript's `\w` / `\b` see them:
`[A-Za-z0-9_]`. -/
def wordChar (c : Char) : Bool :=
  (('a' ≤ c && c ≤ 'z') || ('A' ≤ c && c ≤ 'Z') || ('0' ≤ c && c ≤ '9') || c = '_')

/-- JavaScript `String.prototype.trim` (ASCII whitespace; the sources are
ASCII). -/
def jsTrim (s : String) : String :=
  String.mk ((s.data.dropWhile wsChar).reverse.dropWhile wsChar |>.reverse)

/-- Decimal digit test. -/
def digitChar (c : Char) : Bool := '0' ≤ c && c ≤ '9'

/-- Value of a list of decimal digits. -/
def digitsVal (cs : List Char) : Nat :=
  cs.foldl (fun acc c => acc * 10 + (c.toNat - 48)) 0

/-- JavaScript `Number(string)` restricted to the decimal literals the
sources can produce: optional sign, digits, optional fraction digits.
A blank string converts to `0`; anything unparsable is `NaN` (`none`).
(Hex, exponents and `Infinity` literals are not exercised by any claim.) -/
def strToNum (s : String) : Option ℚ :=
  let cs := (s.data.dropWhile wsChar).reverse.dropWhile wsChar |>.reverse
  match cs with
  | [] => some 0
  | _ =>
    let (sign, cs) : ℚ × List Char :=
      match cs with
      | '-' :: rest => (-1, rest)
      | '+' :: rest => (1, rest)
      | _ => (1, cs)
    let intPart := cs.takeWhile digitChar
    let rest := cs.drop intPart.length
    match rest with
    | [] =>
      if intPart.isEmpty then none
      else some (sign * (digitsVal intPart : ℚ))
    | '.' :: fracs =>
      if fracs.all digitChar ∧ ¬ (intPart.isEmpty ∧ fracs.isEmpty) then
        some (sign * ((digitsVal intPart : ℚ) +
          (digitsVal fracs : ℚ) / ((10 : ℚ) ^ fracs.length)))
      else none
    | _ => none

mutual

/-- JavaScript `String(v)`.  Arrays stringify as their elements joined with
commas, `null`/`undefined` elements rendering empty; plain objects stringify
as the constant `"[object Object]"`. -/
def jsToString : Value → String
  | .num q => numToStr q
  | .nan => "NaN"
  | .str s => s
  | .bool b => if b then "true" else "false"
  | .null => "null"
  | .undef => "undefined"
  | .arr vs => String.intercalate "," (jsStringElems vs)
  | .obj _ => "[object Object]"
  | .astNode _ => "[object Object]"

/-- Stringification of array elements for `jsToString` (JavaScript
`Array.prototype.toString`: `null` and `undefined` elements render
empty). -/
def jsStringElems : List Value → List String
  | [] => []
  | v :: rest =>
    (match v with
      | .null => ""
      | .undef => ""
      | _ => jsToString v) :: jsStringElems rest

end

/-- JavaScript `ToPrimitive` as the evaluator's operands encounter it:
arrays and objects are converted via their default stringification, the
other values are already primitive. -/
def toPrimitive (v : Value) : Value :=
  match v with
  | .arr _ => .str (jsToString v)
  | .obj _ => .str (jsToString v)
  | .astNode _ => .str (jsToString v)
  | _ => v

/-- Test for a compound (reference-compared) value. -/
def isCompound : Value → Bool
  | .arr _ => true
  | .obj _ => true
  | .astNode _ => true
  | _ => false

/-- JavaScript `ToNumber`, returning `none` for `NaN`. -/
def jsToNumber (v : Value) : Option ℚ :=
  match v with
  | .num q => some q
  | .nan => none
  | .str s => strToNum s
  | .bool b => some (if b then 1 else 0)
  | .null => some 0
  | .undef => none
  | .arr _ => strToNum (jsToString v)
  | .obj _ => strToNum (jsToString v)
  | .astNode _ => strToNum (jsToString v)

/-- JavaScript truthiness. -/
def toBool : Value → Bool
  | .num q => decide (q ≠ 0)
  | .nan => false
  | .str s => decide (s ≠ "")
  | .bool b => b
  | .null => false
  | .undef => false
  | .arr _ => true
  | .obj _ => true
  | .astNode _ => true

/-- Raw JavaScript `+`: `ToPrimitive` both operands, concatenate if either is
a string, otherwise numeric addition. -/
def jsAdd (a b : Value) : Value :=
  let pa := toPrimitive a
  let pb := toPrimitive b
  match pa, pb with
  | .str s, _ => .str (s ++ jsToString pb)
  | _, .str t => .str (jsToString pa ++ t)
  | _, _ =>
    match jsToNumber pa, jsToNumber pb with
    | some x, some y => .num (x + y)
    | _, _ => .nan

/-- Raw JavaScript `-`. -/
def jsSub (a b : Value) : Value :=
  match jsToNumber a, jsToNumber b with
  | some x, some y => .num (x - y)
  | _, _ => .nan

/-- Raw JavaScript `*`. -/
def jsMul (a b : Value) : Value :=
  match jsToNumber a, jsToNumber b with
  | some x, some y => .num (x * y)
  | _, _ => .nan

/-- Raw JavaScript `/`.  Division by zero yields a non-finite result
(`Infinity` or `NaN`), collapsed into the `nan` marker. -/
def jsDiv (a b : Value) : Value :=
  match jsToNumber a, jsToNumber b with
  | some x, some y => if y = 0 then .nan else .num (x / y)
  | _, _ => .nan

/-- Truncation toward zero, as JavaScript's `%` requires. -/
def ratTrunc (q : ℚ) : Int := q.num.tdiv (q.den : Int)

/-- Raw JavaScript `%` (remainder with the dividend's sign). -/
def jsMod (a b : Value) : Value :=
  match jsToNumber a, jsToNumber b with
  | some x, some y =>
    if y = 0 then .nan else .num (x - y * (ratTrunc (x / y) : ℚ))
  | _, _ => .nan

/-- Raw JavaScript `<`: string-vs-string comparison is lexicographic,
otherwise both sides convert to numbers (`NaN` compares false). -/
def jsLtB (a b : Value) : Bool :=
  match toPrimitive a, toPrimitive b with
  | .str s, .str t => decide (s < t)
  | pa, pb =>
    match jsToNumber pa, jsToNumber pb with
    | some x, some y => decide (x < y)
    | _, _ => false

/-- Raw JavaScript `<=` (`NaN` compares false). -/
def jsLeB (a b : Value) : Bool :=
  match toPrimitive a, toPrimitive b with
  | .str s, .str t => decide (¬ t < s)
  | pa, pb =>
    match jsToNumber pa, jsToNumber pb with
    | some x, some y => decide (x ≤ y)
    | _, _ => false

/-- JavaScript strict equality `===`.  Two compound values compare by
reference; the evaluator's resolutions build fresh structures, so distinct
compound operands are modelled as unequal. -/
def strictEqB (a b : Value) : Bool :=
  match a, b with
  | .num x, .num y => decide (x = y)
  | .str s, .str t => decide (s = t)
  | .bool x, .bool y => x = y
  | .null, .null => true
  | .undef, .undef => true
  | _, _ => false

/-- JavaScript loose equality `==` on primitive values (after any
`ToPrimitive` step): `null`/`undefined` equate with each other only,
booleans coerce to numbers, and a number-vs-string pair converts the
string. -/
def looseEqPrim (a b : Value) : Bool :=
  let a' := match a with | .bool x => Value.num (if x then 1 else 0) | _ => a
  let b' := match b with | .bool y => Value.num (if y then 1 else 0) | _ => b
  match a', b' with
  | .null, .null => true
  | .undef, .undef => true
  | .null, .undef => true
  | .undef, .null => true
  | .num x, .num y => decide (x = y)
  | .str s, .str t => decide (s = t)
  | .num x, .str t => match strToNum t with | some y => decide (x = y) | none => false
  | .str s, .num y => match strToNum s with | some x => decide (x = y) | none => false
  | _, _ => false

/-- JavaScript loose equality `==`.  Two compound values compare by
reference (modelled unequal, see `strictEqB`); a compound against a
primitive converts through `ToPrimitive`. -/
def looseEqB (a b : Value) : Bool :=
  if isCompound a && isCompound b then false
  else looseEqPrim (toPrimitive a) (toPrimitive b)

/-- The `.name` field of a node (`undefined` unless the node is an
identifier). -/
def exprName : Expr → Option String
  | .ident n => some n
  | _ => none

/-- The `.value` field of a node (present only on numeric, string and
boolean literals). -/
def litValue : Expr → Option Value
  | .numLit q => some (.num q)
  | .strLit s => some (.str s)
  | .boolLit b => some (.bool b)
  | _ => none

/-- The optional-chained `callee.object?.name` access the call visitor
performs. -/
def calleeObjName : Expr → Option String
  | .member o _ => exprName o
  | _ => none

/-- The optional-chained `callee.property?.name` access the call visitor
performs. -/
def calleePropName : Expr → Option String
  | .member _ p => exprName p
  | _ => none

/-- The `.operator` field of a node (present on binary and logical
expressions in the modelled fragment). -/
def exprOperator : Expr → Option String
  | .binary op _ _ => some op
  | .logical op _ _ => some op
  | _ => none

/-- The `.left`/`.right` children of a node, when both exist (the condition
visitors' `test.left && test.right` guard). -/
def leftRight : Expr → Option (Expr × Expr)
  | .binary _ l r => some (l, r)
  | .logical _ l r => some (l, r)
  | _ => none

/-- Word-boundary test for the position just after a matched name: the
remainder must start with a non-word character or be the line's end. -/
def boundaryOk : List Char → Bool
  | [] => true
  | c :: _ => !wordChar c

/-- One attempt of the regular expression `\bvar\s+NAME\b` at the head of
`cs` (the preceding boundary is checked by the caller): the literal `var`,
one or more whitespace characters, the variable name, then a word
boundary. -/
def tryVarAt (cs : List Char) (name : List Char) : Bool :=
  match cs with
  | 'v' :: 'a' :: 'r' :: rest =>
    let ws := rest.takeWhile wsChar
    let afterWs := rest.drop ws.length
    decide (0 < ws.length) && name.isPrefixOf afterWs &&
      boundaryOk (afterWs.drop name.length)
  | _ => false

/-- Scan of one line for a match of `\bvar\s+NAME\b` at any position,
tracking whether the previous character was a word character (the `\b`
before `var`). -/
def scanVarDecl (name : List Char) : Bool → List Char → Bool
  | _, [] => false
  | prevWord, c :: cs =>
    (!prevWord && tryVarAt (c :: cs) name) || scanVarDecl name (wordChar c) cs

/-- Test of `line.match(new RegExp('\\bvar\\s+' + varName + '\\b'))` for an
identifier `varName`. -/
def matchesVarDecl (line : String) (varName : String) : Bool :=
  scanVarDecl varName.data false line.data

/-- Method `isVariableHoistedInCode(varName, currentLine, code)`: scan the
raw source lines with 0-based indices `currentLine, currentLine+1, …` (i.e.
strictly after the 1-based line `currentLine`) for a textual `var`
declaration of the name. -/
def isVariableHoistedInCode (varName : String) (currentLine : Nat)
    (lines : List String) : Bool :=
  (lines.drop currentLine).any fun line => matchesVarDecl line varName

/-- Lookup in a JavaScript `Map` with string keys (`Map.prototype.get`;
`none` models `undefined`). -/
def mapGet (m : List (String × Value)) (k : String) : Option Value :=
  match m with
  | [] => none
  | (k', v) :: rest => if k' = k then some v else mapGet rest k

/-- Update of a JavaScript `Map` with string keys (`Map.prototype.set`):
an existing key keeps its original insertion position, a new key is
appended.  The same function models plain-object field assignment, whose
key ordering follows the same rule. -/
def mapSet (m : List (String × Value)) (k : String) (v : Value) :
    List (String × Value) :=
  match m with
  | [] => [(k, v)]
  | (k', v') :: rest =>
    if k' = k then (k', v) :: rest else (k', v') :: mapSet rest k v

mutual

/-- Method `resolveExpression(expr, currentLine, code)` of `JSParser`,
reading the binding table `vals` (field `variableValues`).  The source text
is carried as its list of lines (the method only consumes it via
`code.split('\n')`).  A thrown `TypeError` — which the source code produces
when an object literal contains a spread property, via `prop.key.name` —
is modelled by the `Except` error case. -/
def resolveExpression (vals : List (String × Value)) (expr : Expr)
    (currentLine : Nat) (lines : List String) : Except JsError Value :=
  match expr with
  | .ident varName =>
    if isVariableHoistedInCode varName currentLine lines then
      pure (.str "")
    else
      match mapGet vals varName with
      | some .undef => pure (.str varName)
      | some v => pure v
      | none => pure (.str varName)
  | .numLit q => pure (.num q)
  | .strLit s => pure (.str s)
  | .boolLit b => pure (.bool b)
  | .nullLit => pure .null
  | .arrayE elems => do
    pure (.arr (← resolveArrayElems vals elems currentLine lines))
  | .objectE props => do
    pure (.obj (← resolveProps vals props currentLine lines []))
  | .unary op arg => do
    let argument ← resolveExpression vals arg currentLine lines
    match op with
    | "typeof" =>
      pure (.str (match argument with
        | .num _ => "number"
        | .nan => "number"
        | .str _ => "string"
        | .bool _ => "boolean"
        | .null => "object"
        | .undef => "undefined"
        | _ => "object"))
    | "!" => pure (.bool (!toBool argument))
    | "-" =>
      pure (match jsToNumber argument with
        | some q => .num (-q)
        | none => .nan)
    | "+" =>
      pure (match jsToNumber argument with
        | some q => .num q
        | none => .nan)
    | _ => pure .null
  | .logical op l r => do
    let left ← resolveExpression vals l currentLine lines
    let right ← resolveExpression vals r currentLine lines
    match op with
    | "&&" => pure (if toBool left then right else left)
    | "||" => pure (if toBool left then left else right)
    | _ => pure .null
  | .paren e => resolveExpression vals e currentLine lines
  | .condE t c a => do
    let test ← resolveExpression vals t currentLine lines
    let consequent ← resolveExpression vals c currentLine lines
    let alternate ← resolveExpression vals a currentLine lines
    pure (if toBool test then consequent else alternate)
  | .binary op l r => do
    let left ← resolveExpression vals l currentLine lines
    let right ← resolveExpression vals r currentLine lines
    match op with
    | "+" =>
      match left, right with
      | .str s, _ => pure (.str (s ++ jsToString right))
      | _, .str t => pure (.str (jsToString left ++ t))
      | _, _ => pure (jsAdd left right)
    | "-" => pure (jsSub left right)
    | "*" => pure (jsMul left right)
    | "/" => pure (jsDiv left right)
    | "%" => pure (jsMod left right)
    | ">=" => pure (.bool (jsLeB right left))
    | "<=" => pure (.bool (jsLeB left right))
    | ">" => pure (.bool (jsLtB right left))
    | "<" => pure (.bool (jsLtB left right))
    | "==" => pure (.bool (looseEqB left right))
    | "!=" => pure (.bool (!looseEqB left right))
    | "===" => pure (.bool (strictEqB left right))
    | "!==" => pure (.bool (!strictEqB left right))
    | "&&" => pure (if toBool left then right else left)
    | "||" => pure (if toBool left then left else right)
    | "!" => pure (.bool (!toBool right))
    | _ => pure .null
  | .member o p => do
    let object ← resolveExpression vals o currentLine lines
    let property ← resolveExpression vals p currentLine lines
    match object, property with
    | .str s, .str pn =>
      if pn = "length" then pure (.num s.length)
      else pure (.str (jsToString (.str s) ++ "." ++ jsToString property))
    | .arr vs, .str pn =>
      if pn = "length" then pure (.num vs.length)
      else pure (.str (jsToString (.arr vs) ++ "." ++ jsToString property))
    | .obj fields, _ =>
      pure ((mapGet fields (jsToString property)).getD .undef)
    | .astNode _, _ =>
      -- a stored syntax-tree node also passes `typeof object === "object"`;
      -- its own fields are not modelled (no claim reads them)
      pure .undef
    | _, _ =>
      pure (.str (jsToString object ++ "." ++ jsToString property))
  | .call callee args => do
    let argVals ← resolveElems vals args currentLine lines
    if calleeObjName callee = some "Object" ∧ (calleePropName callee).isSome then
      match argVals.head? with
      | some (.obj fields) =>
        if calleePropName callee = some "keys" then
          pure (.arr (fields.map fun f => .str f.1))
        else if calleePropName callee = some "values" then
          pure (.arr (fields.map fun f => f.2))
        else resolveCallFallback callee argVals
      | _ => resolveCallFallback callee argVals
    else resolveCallFallback callee argVals
  | .unknown _ => pure .null

/-- Continuation of the call branch of `resolveExpression` after the
`Object.keys`/`Object.values` special case did not return: the identifier-
callee special cases (`add`, `multiply`, otherwise the callee's name), and
the final `return null` for every other callee shape. -/
def resolveCallFallback (callee : Expr) (argVals : List Value) :
    Except JsError Value :=
  match callee with
  | .ident funcName =>
    if funcName = "add" then
      match argVals with
      | [.num a, .num b] => pure (.num (a + b))
      | _ => pure (.str funcName)
    else if funcName = "multiply" then
      match argVals with
      | [.num a, .num b] => pure (.num (a * b))
      | _ => pure (.str funcName)
    else pure (.str funcName)
  | _ => pure .null

/-- The `elements.map` callback of the array-literal branch of
`resolveExpression`: it first reads `el.type` — which THROWS a `TypeError`
on a hole, the `null` element of a sparse array literal — then
short-circuits string and numeric literals to their values and recursively
resolves every other element. -/
def resolveArrayElems (vals : List (String × Value)) (es : List (Option Expr))
    (currentLine : Nat) (lines : List String) :
    Except JsError (List Value) :=
  match es with
  | [] => pure []
  | none :: _ =>
    throw (.typeError "Cannot read properties of null (reading 'type')")
  | some (.strLit s) :: rest => do
    pure (.str s :: (← resolveArrayElems vals rest currentLine lines))
  | some (.numLit q) :: rest => do
    pure (.num q :: (← resolveArrayElems vals rest currentLine lines))
  | some e :: rest => do
    let v ← resolveExpression vals e currentLine lines
    pure (v :: (← resolveArrayElems vals rest currentLine lines))

/-- Resolution of a list of call-argument expressions in order
(`arguments.map(arg => this.resolveExpression(arg, ...))` in the source;
the first thrown error aborts, as an exception would; call arguments are
never `null` in the syntax tree). -/
def resolveElems (vals : List (String × Value)) (es : List Expr)
    (currentLine : Nat) (lines : List String) :
    Except JsError (List Value) :=
  match es with
  | [] => pure []
  | e :: rest => do
    let v ← resolveExpression vals e currentLine lines
    pure (v :: (← resolveElems vals rest currentLine lines))

/-- The `properties.forEach` loop of the object-literal branches: for each
property, read `prop.key.name` — which THROWS a `TypeError` on a spread
property, whose `key` is `undefined` — then resolve the value and store it
under the key (a key node without a `.name` stores under `"undefined"`). -/
def resolveProps (vals : List (String × Value)) (ps : List PropEntry)
    (currentLine : Nat) (lines : List String)
    (acc : List (String × Value)) :
    Except JsError (List (String × Value)) :=
  match ps with
  | [] => pure acc
  | .field key v :: rest => do
    let value ← resolveExpression vals v currentLine lines
    resolveProps vals rest currentLine lines (mapSet acc (key.getD "undefined") value)
  | .spread _ :: _ =>
    throw (.typeError "Cannot read properties of undefined (reading 'name')")

end

/-- An entry of the `variables` fact list (`{ name, value }`). -/
structure VarFact where
  name : String
  value : Value

/-- An entry of the `conditions` fact list: `{ variable, operator, value }`.
The first and last fields hold either a resolved value or an (unresolved)
textual operand, both of which are JavaScript values. -/
structure CondFact where
  «variable» : Value
  operator : Option String
  value : Value

/-- An entry of the `objects` fact list: either an object-shape fact
(`{ name, props }`) from a declaration, or an object-method fact
(`{ name: 'Object', method, line, type: 'object_method' }`) from a call. -/
inductive ObjFact where
  | shape (name : String) (props : List String)
  | objMethod (name : String) (method : String) (line : Nat)

/-- An entry of the `events` fact list (`{ element, event }`; the event is
`arguments[0]?.value`, absent when the first argument is missing or not a
literal). -/
structure EventFact where
  element : String
  event : Option Value

/-- An entry of the `domManipulations` fact list. -/
inductive DomFact where
  | selection (method : String) (selector : Option Value) (line : Nat)
  | innerHTMLAccess (element : String) (line : Nat)

/-- An entry of the `loops` fact list. -/
structure LoopFact where
  ltype : String
  line : Nat
  hasBreak : Bool
  hasContinue : Bool

/-- An entry of the `functions` fact list. -/
structure FuncFact where
  name : Option String
  ftype : String
  parameters : List String
  line : Nat
  hasReturn : Bool

/-- An entry of the `commentedCode` fact list (`{ type, line, content,
description }`; `type` is one of `"variable"`, `"output"`,
`"explanation"`). -/
structure CommentFact where
  ctype : String
  line : Nat
  content : String
  description : String

/-- An entry of the append-only `variableAssignments` record. -/
inductive AssignRec where
  | declaration (name : String) (value : Value) (line : Nat)
  | reassignment (name : String) (value : Value) (line : Nat)
  | compoundAssignment (name : String) (value : Value) (operator : String) (line : Nat)
  | propertyAssignment (name : String) (property : Option String) (value : Value) (line : Nat)
  | arrayMethod (name : String) (value : Value) (method : String) (line : Nat)

/-- The mutable fields of a `JSParser` instance, as initialized by the
constructor and mutated by `parseComments` and the traversal visitors. -/
structure PState where
  «variables» : List VarFact
  conditions : List CondFact
  objects : List ObjFact
  events : List EventFact
  outputs : List String
  commentedCode : List CommentFact
  functions : List FuncFact
  domManipulations : List DomFact
  loops : List LoopFact
  variableValues : List (String × Value)
  variableAssignments : List AssignRec
  declaredVariables : List String

/-- A freshly constructed `JSParser`: every list empty (the
`declaredVariables` set is created but never used). -/
def initialState : PState :=
  { «variables» := [], conditions := [], objects := [], events := [],
    outputs := [], commentedCode := [], functions := [],
    domManipulations := [], loops := [], variableValues := [],
    variableAssignments := [], declaredVariables := [] }

/-- Substring containment on character lists (JavaScript
`String.prototype.includes`). -/
def listContainsSub (hay pat : List Char) : Bool :=
  match hay with
  | [] => pat.isEmpty
  | _ :: rest => pat.isPrefixOf hay || listContainsSub rest pat

/-- JavaScript `s.includes(pat)`. -/
def strIncludes (s pat : String) : Bool :=
  listContainsSub s.data pat.data

/-- Method `parseComments(code)`: a line-oriented pass over the raw source;
each trimmed line starting with `//` is tested by three independent
substring predicates, each appending (in this order) a `variable`, an
`output`, or an `explanation` commented-code fact. -/
def parseComments (code : List String) (st : PState) : PState :=
  (code.enum).foldl (fun st (i, raw) =>
    let line := jsTrim raw
    if "//".data.isPrefixOf line.data then
      let commentContent := jsTrim (String.mk (line.data.drop 2))
      let st :=
        if strIncludes commentContent "const " || strIncludes commentContent "let " ||
            strIncludes commentContent "var " then
          { st with commentedCode := st.commentedCode ++
              [⟨"variable", i + 1, commentContent,
                "Commented variable declaration: " ++ commentContent⟩] }
        else st
      let st :=
        if strIncludes commentContent "console.log" then
          { st with commentedCode := st.commentedCode ++
              [⟨"output", i + 1, commentContent,
                "Commented console output: " ++ commentContent⟩] }
        else st
      if strIncludes commentContent "Final Bill" || strIncludes commentContent "discount" then
        { st with commentedCode := st.commentedCode ++
            [⟨"explanation", i + 1, commentContent,
              "Explanatory comment: " ++ commentContent⟩] }
      else st
    else st) st

/-- The statement fragment the claims exercise, each statement carrying the
1-based source line of its node (the modelled statements are single-line,
so nested expression nodes share the statement's line).  `varDecl` is a
`VariableDeclarator` with an identifier id; `assign` an
`ExpressionStatement` wrapping an `AssignmentExpression`; `exprStmt` any
other expression statement; `ifStmt` an `IfStatement`.  Function, loop and
other statement kinds — whose visitors only append facts of their own
streams — are outside the fragment. -/
inductive Stmt where
  | varDecl (name : String) (init : Option Expr) (line : Nat)
  | assign (operator : String) (lhs : Expr) (rhs : Expr) (line : Nat)
  | exprStmt (e : Expr) (line : Nat)
  | ifStmt (test : Expr) (cons : List Stmt) (alt : List Stmt) (line : Nat)

/-- Method `extractOperator(test)`:
`test.operator || (test.type === "BinaryExpression" ? test.operator : null)`. -/
def extractOperator (t : Expr) : Option String :=
  match exprOperator t with
  | some op =>
    if op ≠ "" then some op
    else match t with | .binary o _ _ => some o | _ => none
  | none => match t with | .binary o _ _ => some o | _ => none

/-- The condition visitors' operator field:
`test.operator || this.extractOperator(test)`. -/
def condOperator (t : Expr) : Option String :=
  match exprOperator t with
  | some op => if op ≠ "" then some op else extractOperator t
  | none => extractOperator t

/-- Push of a literal declaration: `this.variables.push({ name, value })`
followed by `this.variableValues.set(name, value)`. -/
def declLitPush (st : PState) (name : String) (v : Value) : PState :=
  { st with «variables» := st.«variables» ++ [⟨name, v⟩],
            variableValues := mapSet st.variableValues name v }

/-- The `elements.map` of the declaration visitor's `ArrayExpression`
branch: the callback reads `el.type` — which THROWS a `TypeError` on a
hole (`null` element of a sparse array literal) — string and numeric
literals become their values, and any other element keeps the raw
syntax-tree node (`return el`). -/
def declArrayElems : List (Option Expr) → Except JsError (List Value)
  | [] => pure []
  | none :: _ =>
    throw (.typeError "Cannot read properties of null (reading 'type')")
  | some (.strLit s) :: rest => do
    pure (.str s :: (← declArrayElems rest))
  | some (.numLit q) :: rest => do
    pure (.num q :: (← declArrayElems rest))
  | some e :: rest => do
    pure (.astNode e :: (← declArrayElems rest))

/-- The `VariableDeclarator` visitor: push an assignment record, then run
the non-exclusive literal / null / array / object branches, then the
complex-expression branch (whose exclusion list omits `BooleanLiteral` and
`NullLiteral`, so those re-resolve; a `null` resolution is not stored). -/
def visitVarDecl (st : PState) (name : String) (init : Option Expr)
    (line : Nat) (lines : List String) : Except JsError PState := do
  let recValue ← match init with
    | some e => resolveExpression st.variableValues e line lines
    | none => pure Value.undef
  let st := { st with variableAssignments :=
    st.variableAssignments ++ [.declaration name recValue line] }
  match init with
  | none => pure (declLitPush st name .undef)
  | some valueNode => do
    let st :=
      match valueNode with
      | .numLit q => declLitPush st name (.num q)
      | .strLit s => declLitPush st name (.str s)
      | .boolLit b => declLitPush st name (.bool b)
      | _ => st
    let st :=
      match valueNode with
      | .nullLit => declLitPush st name .null
      | _ => st
    let st ← match valueNode with
      | .arrayE elems => do
        let avs ← declArrayElems elems
        pure { st with
          variableValues := mapSet st.variableValues name (.arr avs) }
      | _ => pure st
    let st ← match valueNode with
      | .objectE props => do
        let fields ← resolveProps st.variableValues props line lines []
        pure { st with
          objects := st.objects ++ [.shape name (fields.map (·.1))],
          variableValues := mapSet st.variableValues name (.obj fields) }
      | _ => pure st
    match valueNode with
    | .numLit _ => pure st
    | .strLit _ => pure st
    | .arrayE _ => pure st
    | .objectE _ => pure st
    | _ => do
      let resolvedValue ← resolveExpression st.variableValues valueNode line lines
      match resolvedValue with
      | .null => pure st
      | v => pure { st with variableValues := mapSet st.variableValues name v }

/-- Fields visible to a spread `{ ...current }`: object fields as they are,
array elements under their stringified indices.  A stored syntax-tree node
also spreads (its fields are not modelled).  `none` for every value whose
`typeof` is not `"object"` or which is falsy. -/
def spreadFields : Value → Option (List (String × Value))
  | .obj fs => some fs
  | .arr vs => some (vs.enum.map fun p => (toString p.1, p.2))
  | .astNode _ => some []
  | _ => none

/-- The `AssignmentExpression` visitor: identifier targets perform plain or
compound assignment (a falsy or absent current value becomes `0` via
`this.variableValues.get(name) || 0`; the four arithmetic compound
operators apply raw JavaScript arithmetic, any other operator stores the
right-hand value); member-expression targets with a known object value
merge the property copy-on-write; anything else is dropped. -/
def visitAssign (st : PState) (operator : String) (lhs rhs : Expr)
    (line : Nat) (lines : List String) : Except JsError PState := do
  match lhs with
  | .ident name =>
    if operator ≠ "=" then do
      let currentValue :=
        match mapGet st.variableValues name with
        | some v => if toBool v then v else Value.num 0
        | none => Value.num 0
      let rightValue ← resolveExpression st.variableValues rhs line lines
      let newValue :=
        match operator with
        | "+=" => jsAdd currentValue rightValue
        | "-=" => jsSub currentValue rightValue
        | "*=" => jsMul currentValue rightValue
        | "/=" => jsDiv currentValue rightValue
        | _ => rightValue
      pure { st with
        variableAssignments := st.variableAssignments ++
          [.compoundAssignment name newValue operator line],
        variableValues := mapSet st.variableValues name newValue }
    else do
      let value ← resolveExpression st.variableValues rhs line lines
      pure { st with
        variableAssignments := st.variableAssignments ++
          [.reassignment name value line],
        variableValues := mapSet st.variableValues name value }
  | .member o p => do
    let newValue ← resolveExpression st.variableValues rhs line lines
    match exprName o with
    | none => pure st
    | some objectName =>
      match mapGet st.variableValues objectName with
      | some currentObject =>
        match spreadFields currentObject with
        | some base =>
          let propertyName := exprName p
          let updatedObject := mapSet base (propertyName.getD "undefined") newValue
          pure { st with
            variableValues :=
              mapSet st.variableValues objectName (.obj updatedObject),
            variableAssignments := st.variableAssignments ++
              [.propertyAssignment objectName propertyName newValue line] }
        | none => pure st
      | none => pure st
  | _ => pure st

/-- Formatting of one resolved `console.log` argument: arrays join their
elements with commas, objects (including stored syntax-tree nodes) render
as `"[object Object]"`, `null`/`undefined` render empty, and every other
value stringifies as JavaScript would when `args.join(" ")` runs. -/
def consoleFmt (v : Value) : String :=
  match v with
  | .arr vs => jsToString (.arr vs)
  | .obj _ => "[object Object]"
  | .astNode _ => "[object Object]"
  | .null => ""
  | .undef => ""
  | v => jsToString v

/-- Branch 1 of the `CallExpression` visitor: `console.log` output
collection. -/
def callConsoleStep (st : PState) (callee : Expr) (args : List Expr)
    (line : Nat) (lines : List String) : Except JsError PState := do
  if calleeObjName callee = some "console" ∧ calleePropName callee = some "log" then do
    let resolvedArgs ← resolveElems st.variableValues args line lines
    let output := String.intercalate " " (resolvedArgs.map consoleFmt)
    pure { st with outputs := st.outputs ++ [output] }
  else pure st

/-- Branch 2 of the `CallExpression` visitor: `push` on an array-valued
identifier receiver (copy-on-write append plus an `array_method`
assignment record). -/
def callPushStep (st : PState) (callee : Expr) (args : List Expr)
    (line : Nat) (lines : List String) : Except JsError PState := do
  match callee with
  | .member (.ident arrayName) p =>
    match mapGet st.variableValues arrayName with
    | some (.arr currentArray) =>
      if exprName p = some "push" then do
        let newElements ← resolveElems st.variableValues args line lines
        let updatedArray := currentArray ++ newElements
        pure { st with
          variableValues := mapSet st.variableValues arrayName (.arr updatedArray),
          variableAssignments := st.variableAssignments ++
            [.arrayMethod arrayName (.arr updatedArray) "push" line] }
      else pure st
    | _ => pure st
  | _ => pure st

/-- Branch 3 of the `CallExpression` visitor: `addEventListener`
registration. -/
def callEventStep (st : PState) (callee : Expr) (args : List Expr) : PState :=
  if calleePropName callee = some "addEventListener" then
    { st with events := st.events ++
        [⟨(calleeObjName callee).getD "element", args.head?.bind litValue⟩] }
  else st

/-- Branch 4 of the `CallExpression` visitor: `getElementById` /
`querySelector` element selection. -/
def callDomStep (st : PState) (callee : Expr) (args : List Expr)
    (line : Nat) : PState :=
  match calleePropName callee with
  | some m =>
    if m = "getElementById" ∨ m = "querySelector" then
      { st with domManipulations := st.domManipulations ++
          [.selection m (args.head?.bind litValue) line] }
    else st
  | none => st

/-- Branch 4b of the `CallExpression` visitor: the `innerHTML` call shape
(a member callee whose object is itself a member expression). -/
def callInnerStep (st : PState) (callee : Expr) (line : Nat) : PState :=
  match callee with
  | .member (.member oo _) p =>
    if exprName p = some "innerHTML" then
      { st with domManipulations := st.domManipulations ++
          [.innerHTMLAccess ((exprName oo).getD "element") line] }
    else st
  | _ => st

/-- Branch 5 of the `CallExpression` visitor: `Object` method calls — an
object-method fact, and for `keys`/`values` on an argument resolving to an
object, the synthetic binding-table entry
`Object.<method>(<argument name or 'obj'>)`. -/
def callObjectStep (st : PState) (callee : Expr) (args : List Expr)
    (line : Nat) (lines : List String) : Except JsError PState := do
  match calleeObjName callee, calleePropName callee with
  | some objName, some methodName =>
    if objName = "Object" then
      if methodName = "" then pure st
      else
      let st := { st with objects := st.objects ++ [.objMethod "Object" methodName line] }
      match args with
      | [] => pure st
      | arg :: _ => do
        let resolvedArg ← resolveExpression st.variableValues arg line lines
        match resolvedArg with
        | .obj fields =>
          let result : Option Value :=
            if methodName = "keys" then some (.arr (fields.map fun f => Value.str f.1))
            else if methodName = "values" then some (.arr (fields.map fun f => f.2))
            else none
          match result with
          | some r =>
            let resultVarName :=
              "Object." ++ methodName ++ "(" ++ ((exprName arg).getD "obj") ++ ")"
            pure { st with variableValues := mapSet st.variableValues resultVarName r }
          | none => pure st
        | _ =>
          -- a stored syntax-tree node would also pass the typeof check in the
          -- source; its keys are not modelled (no claim reaches this corner)
          pure st
    else pure st
  | _, _ => pure st

/-- The `CallExpression` visitor: its five sequential branches
(`console.log` output, array `push`, `addEventListener`,
`getElementById`/`querySelector` plus the `innerHTML` call shape, and
`Object` method calls), run in source order on the same call node. -/
def visitCall (st : PState) (callee : Expr) (args : List Expr)
    (line : Nat) (lines : List String) : Except JsError PState := do
  let st ← callConsoleStep st callee args line lines
  let st ← callPushStep st callee args line lines
  let st := callEventStep st callee args
  let st := callDomStep st callee args line
  let st := callInnerStep st callee line
  callObjectStep st callee args line lines

/-- The `ConditionalExpression` visitor: when the ternary's test has both a
left and a right child, record a condition fact whose operand fields keep
an identifier's textual name unresolved and resolve anything else. -/
def visitCond (st : PState) (t : Expr) (line : Nat) (lines : List String) :
    Except JsError PState := do
  match leftRight t with
  | some (l, r) => do
    let leftVar ← match l with
      | .ident n => pure (Value.str n)
      | _ => resolveExpression st.variableValues l line lines
    let rightVar ← match r with
      | .ident n => pure (Value.str n)
      | _ => resolveExpression st.variableValues r line lines
    pure { st with conditions := st.conditions ++ [⟨leftVar, condOperator t, rightVar⟩] }
  | none => pure st

/-- The `IfStatement` visitor: when the test has both a left and a right
child, record a condition fact with BOTH operands resolved. -/
def visitIf (st : PState) (t : Expr) (line : Nat) (lines : List String) :
    Except JsError PState := do
  match leftRight t with
  | some (l, r) => do
    let lv ← resolveExpression st.variableValues l line lines
    let rv ← resolveExpression st.variableValues r line lines
    pure { st with conditions := st.conditions ++ [⟨lv, condOperator t, rv⟩] }
  | none => pure st

mutual

/-- Pre-order traversal of an expression's nodes, firing the
`ConditionalExpression` and `CallExpression` visitors (the only
expression-level visitors registered), parent before children. -/
def walkExpr (st : PState) (e : Expr) (line : Nat) (lines : List String) :
    Except JsError PState :=
  match e with
  | .condE t c a => do
    let st ← visitCond st t line lines
    let st ← walkExpr st t line lines
    let st ← walkExpr st c line lines
    walkExpr st a line lines
  | .call callee args => do
    let st ← visitCall st callee args line lines
    let st ← walkExpr st callee line lines
    walkExprList st args line lines
  | .arrayE elems => walkOptList st elems line lines
  | .objectE props => walkPropList st props line lines
  | .unary _ a => walkExpr st a line lines
  | .logical _ l r => do
    let st ← walkExpr st l line lines
    walkExpr st r line lines
  | .paren inner => walkExpr st inner line lines
  | .binary _ l r => do
    let st ← walkExpr st l line lines
    walkExpr st r line lines
  | .member o p => do
    let st ← walkExpr st o line lines
    walkExpr st p line lines
  | _ => pure st

/-- Traversal of a list of sibling expression nodes in order. -/
def walkExprList (st : PState) (es : List Expr) (line : Nat)
    (lines : List String) : Except JsError PState :=
  match es with
  | [] => pure st
  | e :: rest => do
    walkExprList (← walkExpr st e line lines) rest line lines

/-- Traversal of an `ArrayExpression`'s elements: a hole (`null` element)
is no node at all, so the traversal skips it and fires no visitor. -/
def walkOptList (st : PState) (es : List (Option Expr)) (line : Nat)
    (lines : List String) : Except JsError PState :=
  match es with
  | [] => pure st
  | none :: rest => walkOptList st rest line lines
  | some e :: rest => do
    walkOptList (← walkExpr st e line lines) rest line lines

/-- Traversal of an object literal's properties (a spread element's
argument is traversed like any child; only resolution of the literal
throws). -/
def walkPropList (st : PState) (ps : List PropEntry) (line : Nat)
    (lines : List String) : Except JsError PState :=
  match ps with
  | [] => pure st
  | .field _ v :: rest => do
    walkPropList (← walkExpr st v line lines) rest line lines
  | .spread a :: rest => do
    walkPropList (← walkExpr st a line lines) rest line lines

end

mutual

/-- Traversal of one statement: fire its statement-level visitor, then
traverse its child expressions (and, for `if`, its nested statements). -/
def walkStmt (st : PState) (s : Stmt) (lines : List String) :
    Except JsError PState :=
  match s with
  | .varDecl name init line => do
    let st ← visitVarDecl st name init line lines
    match init with
    | some e => walkExpr st e line lines
    | none => pure st
  | .assign op lhs rhs line => do
    let st ← visitAssign st op lhs rhs line lines
    let st ← walkExpr st lhs line lines
    walkExpr st rhs line lines
  | .exprStmt e line => walkExpr st e line lines
  | .ifStmt test cons alt line => do
    let st ← visitIf st test line lines
    let st ← walkExpr st test line lines
    let st ← walkStmts st cons lines
    walkStmts st alt lines

/-- Traversal of a statement list in source order. -/
def walkStmts (st : PState) (ss : List Stmt) (lines : List String) :
    Except JsError PState :=
  match ss with
  | [] => pure st
  | s :: rest => do
    walkStmts (← walkStmt st s lines) rest lines

end

/-- Escape of a string for JSON output (quote and backslash; the sources
contain no control characters). -/
def jsonQuote (s : String) : String :=
  "\"" ++ String.mk (s.data.foldr
    (fun c acc => if c = '"' ∨ c = '\\' then '\\' :: c :: acc else c :: acc) []) ++ "\""

mutual

/-- JavaScript `String(JSON.stringify(v))` as the variable-test description
interpolates it (`JSON.stringify(undefined)` is `undefined`, which the
template renders as the text `undefined`; an `undefined` array element
renders `null`; `undefined` object fields are omitted).  The JSON of a
stored raw syntax-tree node is not reproduced — a placeholder stands in
(no claim inspects it). -/
def jsonStringify : Value → String
  | .num q => numToStr q
  | .nan => "null"
  | .str s => jsonQuote s
  | .bool b => if b then "true" else "false"
  | .null => "null"
  | .undef => "undefined"
  | .arr vs => "[" ++ String.intercalate "," (jsonElems vs) ++ "]"
  | .obj fs => "\x7b" ++ String.intercalate "," (jsonFields fs) ++ "\x7d"
  | .astNode _ => "\x7bnode\x7d"

/-- JSON rendering of array elements. -/
def jsonElems : List Value → List String
  | [] => []
  | v :: rest =>
    (match v with
      | .undef => "null"
      | _ => jsonStringify v) :: jsonElems rest

/-- JSON rendering of object fields (`undefined` fields omitted). -/
def jsonFields : List (String × Value) → List String
  | [] => []
  | (k, v) :: rest =>
    match v with
    | .undef => jsonFields rest
    | _ => (jsonQuote k ++ ":" ++ jsonStringify v) :: jsonFields rest

end

/-- One test specification as `generateTests` builds it: the constructor
determines the record's `type` tag (see `testKind`), and each carries its
kind-specific expectation fields.  Constant fields of the source records
(`expectedLoops: 1`, the event's expected console output) are determined by
the listed fields and omitted. -/
inductive TestSpec where
  | variableTest (description : String) (vname : String) (expectedValue : Value)
  | conditionTest (description : String) («variable» : Value)
      (expectedOperator : Option String) (value : Value)
  | objectMethodTest (description : String) (objectName : String) (method : String)
  | objectShapeTest (description : String) (objectName : String)
      (expectedProperties : List String)
  | outputTest (description : String) (expectedOutput : String)
  | eventTest (description : String) (selector : String) (event : Option Value)
  | functionTest (description : String) (functionName : Option String)
      (expectedParameters : List String) (hasReturn : Bool) (functionType : String)
  | domSelectionTest (description : String) (method : String) (selector : Option Value)
  | domInnerHTMLTest (description : String) (element : String)
  | loopTest (description : String) (loopType : String) (hasBreak : Bool) (hasContinue : Bool)
  | commentedVariableTest (description : String) (vname : String)
      (expectedValue : String) (comment : String)
  | commentedOutputTest (description : String) (expectedOutput : String) (comment : String)
  | explanationTest (description : String) (comment : String)
  | genericTest (description : String)

/-- The `type` string of a test specification. -/
def testKind : TestSpec → String
  | .variableTest .. => "variable"
  | .conditionTest .. => "condition"
  | .objectMethodTest .. => "object"
  | .objectShapeTest .. => "object"
  | .outputTest .. => "output"
  | .eventTest .. => "event"
  | .functionTest .. => "function"
  | .domSelectionTest .. => "dom_structure"
  | .domInnerHTMLTest .. => "dom_structure"
  | .loopTest .. => "loop"
  | .commentedVariableTest .. => "commented_variable"
  | .commentedOutputTest .. => "commented_output"
  | .explanationTest .. => "explanation"
  | .genericTest .. => "generic"

/-- Template interpolation of a possibly-null string (JavaScript renders
`null` as the text `null`). -/
def tmplOptStr : Option String → String
  | some s => s
  | none => "null"

/-- Template interpolation of an optional value (an absent value is
JavaScript `undefined`, rendering as the text `undefined`). -/
def tmplOptVal : Option Value → String
  | some v => jsToString v
  | none => "undefined"

/-- JavaScript `s.replace('_', ' ')`: only the FIRST occurrence is
replaced (a string pattern never replaces globally). -/
def replaceFirstUnderscore (s : String) : String :=
  String.mk (replaceFirstUnderscoreAux s.data)
where
  replaceFirstUnderscoreAux : List Char → List Char
    | [] => []
    | '_' :: rest => ' ' :: rest
    | c :: rest => c :: replaceFirstUnderscoreAux rest

/-- Attempt of the keyword alternation `(?:const|let|var)` at the head of
the character list, returning the remainder on success (the three keywords
are mutually prefix-free, so at most one alternative applies). -/
def kwAt (cs : List Char) : Option (List Char) :=
  if "const".data.isPrefixOf cs then some (cs.drop 5)
  else if "let".data.isPrefixOf cs then some (cs.drop 3)
  else if "var".data.isPrefixOf cs then some (cs.drop 3)
  else none

/-- Attempt of `(?:const|let|var)\s+(\w+)\s*=\s*([^;]+);?` anchored at the
head of `cs`, returning the two capture groups.  The only backtracking the
greedy engine can perform is between the `\s*` after `=` and `([^;]+)`
(whitespace is a non-`;` character): if the maximal whitespace run is
followed by `;` or the end, the engine gives the last whitespace character
to the group. -/
def varCommentTryAt (cs : List Char) : Option (String × String) :=
  match kwAt cs with
  | none => none
  | some rest =>
    let ws := rest.takeWhile wsChar
    if ws.isEmpty then none
    else
      let afterWs := rest.drop ws.length
      let w := afterWs.takeWhile wordChar
      if w.isEmpty then none
      else
        let afterW := afterWs.drop w.length
        let sp := afterW.takeWhile wsChar
        match afterW.drop sp.length with
        | '=' :: tail =>
          let sp2 := tail.takeWhile wsChar
          let afterSp2 := tail.drop sp2.length
          let run := afterSp2.takeWhile (fun c => c ≠ ';')
          if 0 < run.length then some (String.mk w, String.mk run)
          else
            match sp2.getLast? with
            | some c => some (String.mk w, String.mk [c])
            | none => none
        | _ => none

/-- Model of `content.match(/(?:const|let|var)\s+(\w+)\s*=\s*([^;]+);?/)`:
the leftmost position where the pattern matches, with its capture
groups. -/
def varCommentMatch (content : String) : Option (String × String) :=
  varCommentScan content.data
where
  varCommentScan : List Char → Option (String × String)
    | [] => none
    | c :: cs =>
      match varCommentTryAt (c :: cs) with
      | some g => some g
      | none => varCommentScan cs

/-- Attempt of `console\.log\((.+)\);?` anchored at the head of `cs`: the
greedy `.+` backtracks to the LAST `)` of the remainder, and needs at
least one character before it. -/
def outputTryAt (cs : List Char) : Option String :=
  if "console.log(".data.isPrefixOf cs then
    let tail := cs.drop 12
    let n := tail.length
    let k := (tail.reverse.takeWhile (fun c => c ≠ ')')).length
    if k = n then none
    else if 1 ≤ n - 1 - k then some (String.mk (tail.take (n - 1 - k)))
    else none
  else none

/-- Model of `content.match(/console\.log\((.+)\);?/)`: the leftmost
position where the pattern matches, with its capture group. -/
def outputCommentMatch (content : String) : Option String :=
  outputScan content.data
where
  outputScan : List Char → Option String
    | [] => none
    | c :: cs =>
      match outputTryAt (c :: cs) with
      | some g => some g
      | none => outputScan cs

/-- The variable test built for one binding-table entry. -/
def mkVariableTest (p : String × Value) : TestSpec :=
  .variableTest
    ("Variable '" ++ p.1 ++ "' should have final value " ++ jsonStringify p.2)
    p.1 p.2

/-- The condition test built for one condition fact. -/
def mkConditionTest (c : CondFact) : TestSpec :=
  .conditionTest
    ("Check if " ++ jsToString c.«variable» ++ " " ++ tmplOptStr c.operator ++ " " ++
      jsToString c.value ++ " condition is used")
    c.«variable» c.operator c.value

/-- The object test built for one object fact. -/
def mkObjectTest : ObjFact → TestSpec
  | .objMethod name m _ =>
    .objectMethodTest ("Should use Object." ++ m ++ "() method") name m
  | .shape name props =>
    .objectShapeTest
      ("Check if '" ++ name ++ "' object contains " ++
        String.intercalate ", " props ++ " properties")
      name props

/-- The output test built for one output fact. -/
def mkOutputTest (o : String) : TestSpec :=
  .outputTest ("Should print '" ++ o ++ "' using console.log") o

/-- The event test built for one event fact. -/
def mkEventTest (e : EventFact) : TestSpec :=
  .eventTest
    ("Check " ++ e.element ++ " handles '" ++ tmplOptVal e.event ++ "' event")
    ("#" ++ e.element) e.event

/-- The function test built for one function fact. -/
def mkFunctionTest (f : FuncFact) : TestSpec :=
  .functionTest
    ("Function '" ++ tmplOptStr' f.name ++ "' should be declared with " ++
      toString f.parameters.length ++ " parameter(s)")
    f.name f.parameters f.hasReturn f.ftype
where
  tmplOptStr' : Option String → String
    | some s => s
    | none => "undefined"

/-- The DOM test built for one DOM-manipulation fact. -/
def mkDomTest : DomFact → TestSpec
  | .selection m sel _ =>
    .domSelectionTest ("Should use " ++ m ++ " to select element") m sel
  | .innerHTMLAccess el _ =>
    .domInnerHTMLTest ("Should access innerHTML property of " ++ el) el

/-- The loop test built for one loop fact. -/
def mkLoopTest (l : LoopFact) : TestSpec :=
  .loopTest ("Should use " ++ replaceFirstUnderscore l.ltype ++ " loop")
    l.ltype l.hasBreak l.hasContinue

/-- The zero or one test specifications built for one commented-code fact:
a `variable` fact needs its content to match the declaration-extraction
pattern, an `output` fact needs its content to match the
`console.log`-extraction pattern (quotes stripped globally, then trimmed),
and an `explanation` fact always produces its test. -/
def mkCommentTests (c : CommentFact) : List TestSpec :=
  if c.ctype = "variable" then
    match varCommentMatch c.content with
    | some (varName, rawValue) =>
      let varValue := jsTrim rawValue
      [.commentedVariableTest
        ("Commented variable '" ++ varName ++ "' should be uncommented with value " ++ varValue)
        varName varValue c.content]
    | none => []
  else if c.ctype = "output" then
    match outputCommentMatch c.content with
    | some g =>
      let expectedOutput := jsTrim (String.mk (g.data.filter fun ch => ch ≠ '\'' ∧ ch ≠ '"'))
      [.commentedOutputTest
        ("Commented console output should be uncommented: " ++ expectedOutput)
        expectedOutput c.content]
    | none => []
  else if c.ctype = "explanation" then
    [.explanationTest ("Comment explains: " ++ c.content) c.content]
  else []

/-- Method `generateTests(code)` (its `code` argument is unused): one test
per binding-table entry (insertion order), then conditions, objects,
outputs, events, functions, DOM manipulations, loops and commented-code
facts; if nothing was produced, the single generic placeholder. -/
def generateTests (st : PState) : List TestSpec :=
  let tests :=
    st.variableValues.map mkVariableTest ++
    st.conditions.map mkConditionTest ++
    st.objects.map mkObjectTest ++
    st.outputs.map mkOutputTest ++
    st.events.map mkEventTest ++
    st.functions.map mkFunctionTest ++
    st.domManipulations.map mkDomTest ++
    st.loops.map mkLoopTest ++
    (st.commentedCode.map mkCommentTests).flatten
  if tests.isEmpty then
    [.genericTest "No clear logic detected; manual validation needed."]
  else tests

/-- A structured parse failure from the external Babel parser (message and
optional location), the shape of the `SyntaxError` it throws. -/
structure ParseError where
  message : String
  line : Option Nat
  col : Option Nat

/-- A source file as the analysis consumes it: its raw lines (the class
only uses the text via `split('\n')`) and the syntax tree the external
parser produces for it — or the parser's structured error when the source
is malformed. -/
structure Source where
  lines : List String
  ast : Except ParseError (List Stmt)

/-- Failure of a whole `parse` invocation: the propagated parser error, or
a runtime exception thrown mid-walk. -/
inductive AnalysisError where
  | parseFailure (e : ParseError)
  | runtime (e : JsError)

/-- The object `parse` returns. -/
structure ParseResult where
  «variables» : List VarFact
  conditions : List CondFact
  objects : List ObjFact
  events : List EventFact
  outputs : List String
  commentedCode : List CommentFact
  functions : List FuncFact
  domManipulations : List DomFact
  loops : List LoopFact
  variableAssignments : List AssignRec
  «structure» : List TestSpec

/-- Method `parse(code)` on an instance in state `st`: run `parseComments`,
then hand the code to the external parser — whose failure propagates and
yields the caller nothing — then run the traversal (whose thrown
exceptions also propagate) and return the fact lists together with the
generated test structure.  The returned state is the instance's state
after the call. -/
def parse (st : PState) (src : Source) :
    Except AnalysisError (PState × ParseResult) :=
  let st := parseComments src.lines st
  match src.ast with
  | .error e => .error (.parseFailure e)
  | .ok prog =>
    match walkStmts st prog src.lines with
    | .error e => .error (.runtime e)
    | .ok st2 =>
      .ok (st2,
        { «variables» := st2.«variables», conditions := st2.conditions,
          objects := st2.objects, events := st2.events,
          outputs := st2.outputs, commentedCode := st2.commentedCode,
          functions := st2.functions,
          domManipulations := st2.domManipulations, loops := st2.loops,
          variableAssignments := st2.variableAssignments,
          «structure» := generateTests st2 })

/-! Specification-side definitions used to state the claims. -/

/-- The name/expected-value view of the variable test specifications in a
generated test list. -/
def varView (ts : List TestSpec) : List (String × Value) :=
  ts.filterMap fun t =>
    match t with
    | .variableTest _ n v => some (n, v)
    | _ => none

/-- A literal initializer and its value (number, string, boolean or null
literal). -/
def declLit : Expr → Option Value
  | .numLit q => some (.num q)
  | .strLit s => some (.str s)
  | .boolLit b => some (.bool b)
  | .nullLit => some .null
  | _ => none

/-- One declaration of a literal-initialized variable, for stating the
claim about declaration-only programs. -/
structure DeclSpec where
  name : String
  init : Expr
  value : Value
  line : Nat

/-- The statement a `DeclSpec` denotes. -/
def DeclSpec.stmt (d : DeclSpec) : Stmt :=
  .varDecl d.name (some d.init) d.line

mutual

/-- The variable names a statement declares (including inside `if`
branches). -/
def declaredNamesS : Stmt → List String
  | .varDecl n _ _ => [n]
  | .ifStmt _ c a _ => declaredNames c ++ declaredNames a
  | _ => []

/-- The variable names a statement list declares. -/
def declaredNames : List Stmt → List String
  | [] => []
  | s :: rest => declaredNamesS s ++ declaredNames rest

end

mutual

/-- The number of assignment statements in a statement (including inside
`if` branches). -/
def assignCountS : Stmt → Nat
  | .assign .. => 1
  | .ifStmt _ c a _ => assignCount c + assignCount a
  | _ => 0

/-- The number of assignment statements in a statement list. -/
def assignCount : List Stmt → Nat
  | [] => 0
  | s :: rest => assignCountS s + assignCount rest

end

mutual

/-- Expressions on which resolution cannot throw: no spread property in
any object literal and no hole in any array literal (the two node shapes
on which `resolveExpression` throws a `TypeError`). -/
def resolvableE : Expr → Bool
  | .arrayE es => resolvableOpts es
  | .objectE ps => resolvableProps ps
  | .unary _ a => resolvableE a
  | .logical _ l r => resolvableE l && resolvableE r
  | .paren e => resolvableE e
  | .condE t c a => resolvableE t && resolvableE c && resolvableE a
  | .binary _ l r => resolvableE l && resolvableE r
  | .member o p => resolvableE o && resolvableE p
  | .call callee args => resolvableE callee && resolvableList args
  | _ => true

/-- Resolvability for call-argument lists. -/
def resolvableList : List Expr → Bool
  | [] => true
  | e :: rest => resolvableE e && resolvableList rest

/-- Resolvability for array-literal element lists: a hole (`none`) makes
resolution throw, so it is excluded. -/
def resolvableOpts : List (Option Expr) → Bool
  | [] => true
  | none :: _ => false
  | some e :: rest => resolvableE e && resolvableOpts rest

/-- Resolvability for object-literal properties: a spread property makes
resolution throw, so it is excluded. -/
def resolvableProps : List PropEntry → Bool
  | [] => true
  | .field _ v :: rest => resolvableE v && resolvableProps rest
  | .spread _ :: _ => false

end

mutual

/-- Resolvability for statements: every expression the statement's
visitors resolve is spread-free and hole-free. -/
def resolvableS : Stmt → Bool
  | .varDecl _ init _ =>
    (match init with | some e => resolvableE e | none => true)
  | .assign _ lhs rhs _ => resolvableE lhs && resolvableE rhs
  | .exprStmt e _ => resolvableE e
  | .ifStmt t c a _ => resolvableE t && resolvableSs c && resolvableSs a

/-- Resolvability for statement lists. -/
def resolvableSs : List Stmt → Bool
  | [] => true
  | s :: rest => resolvableS s && resolvableSs rest

end

mutual

/-- Expressions whose traversal fires no visitor and hence leaves the
parser state unchanged: no call and no ternary node anywhere. -/
def inertE : Expr → Bool
  | .arrayE es => inertOpts es
  | .objectE ps => inertProps ps
  | .unary _ a => inertE a
  | .logical _ l r => inertE l && inertE r
  | .paren e => inertE e
  | .condE .. => false
  | .binary _ l r => inertE l && inertE r
  | .member o p => inertE o && inertE p
  | .call .. => false
  | _ => true

/-- Visit-inertness for expression lists. -/
def inertList : List Expr → Bool
  | [] => true
  | e :: rest => inertE e && inertList rest

/-- Visit-inertness for array-element lists: a hole is no node, so the
traversal skips it — holes are inert. -/
def inertOpts : List (Option Expr) → Bool
  | [] => true
  | none :: rest => inertOpts rest
  | some e :: rest => inertE e && inertOpts rest

/-- Visit-inertness for object-literal properties. -/
def inertProps : List PropEntry → Bool
  | [] => true
  | .field _ v :: rest => inertE v && inertProps rest
  | .spread a :: rest => inertE a && inertProps rest

end

/-- The keys of a binding table, in order. -/
def keysOf (m : List (String × Value)) : List String :=
  m.map Prod.fst

/-- Evolution of a binding table by a (possibly empty) sequence of
`mapSet` updates — the only operation the walker ever applies to
`variableValues`. -/
inductive MapEvolved : List (String × Value) → List (String × Value) → Prop where
  | refl (m : List (String × Value)) : MapEvolved m m
  | set (m₁ m₂ : List (String × Value)) (k : String) (v : Value) :
      MapEvolved m₁ m₂ → MapEvolved m₁ (mapSet m₂ k v)

/-- State extension: the relation between a parser state and the state
after more of the walk has run — the binding table has evolved by updates
only, and the fact lists have only been appended to. -/
def StExt (st st' : PState) : Prop :=
  MapEvolved st.variableValues st'.variableValues ∧
  st.outputs <+: st'.outputs ∧
  st.commentedCode <+: st'.commentedCode ∧
  st.«variables» <+: st'.«variables» ∧
  st.conditions <+: st'.conditions

/-- The test kind (if any) that one commented-code fact contributes to the
generated sequence: a `variable` fact contributes exactly when its content
matches the declaration-extraction pattern, an `output` fact exactly when
its content matches the `console.log`-extraction pattern, an `explanation`
fact always. -/
def commentKindOf (c : CommentFact) : Option String :=
  if c.ctype = "variable" then
    (varCommentMatch c.content).map fun _ => "commented_variable"
  else if c.ctype = "output" then
    (outputCommentMatch c.content).map fun _ => "commented_output"
  else if c.ctype = "explanation" then some "explanation"
  else none

/-- The kinds of the test specifications a state's facts synthesize, in the
synthesizer's fixed order. -/
def expectedKinds (st : PState) : List String :=
  st.variableValues.map (fun _ => "variable") ++
  st.conditions.map (fun _ => "condition") ++
  st.objects.map (fun _ => "object") ++
  st.outputs.map (fun _ => "output") ++
  st.events.map (fun _ => "event") ++
  st.functions.map (fun _ => "function") ++
  st.domManipulations.map (fun _ => "dom_structure") ++
  st.loops.map (fun _ => "loop") ++
  st.commentedCode.filterMap commentKindOf

/-- The value the amended compound-assignment claim predicts: the four
arithmetic compound operators apply raw JavaScript arithmetic, every other
operator stores the right-hand value. -/
def amendedCompound (op : String) (current rhs : Value) : Value :=
  if op = "+=" then jsAdd current rhs
  else if op = "-=" then jsSub current rhs
  else if op = "*=" then jsMul current rhs
  else if op = "/=" then jsDiv current rhs
  else rhs

/-- The current value the compound-assignment visitor actually works with:
the table's value if present and truthy, otherwise `0`. -/
def fallbackZero (cur : Option Value) : Value :=
  match cur with
  | some v => if toBool v then v else .num 0
  | none => .num 0

/-! Helper lemmas. -/

theorem ebind_ok {ε α β : Type} {x : Except ε α} {f : α → Except ε β} {b : β} :
    x >>= f = .ok b ↔ ∃ a, x = .ok a ∧ f a = .ok b := by
  cases x <;> simp [Bind.bind, Except.bind]

theorem epure_ok {ε α : Type} {a b : α} :
    (pure a : Except ε α) = .ok b ↔ a = b := by
  simp [pure, Except.pure]

theorem mapGet_mapSet_self (m : List (String × Value)) (k : String) (v : Value) :
    mapGet (mapSet m k v) k = some v := by
  induction m with
  | nil => simp [mapSet, mapGet]
  | cons p rest ih =>
    by_cases h : p.1 = k <;> simp [mapSet, mapGet, h, ih]

theorem mapGet_mapSet_ne (m : List (String × Value)) (k k' : String) (v : Value)
    (h : k' ≠ k) : mapGet (mapSet m k v) k' = mapGet m k' := by
  have hne : ¬ (k = k') := fun hh => h hh.symm
  induction m with
  | nil => simp [mapSet, mapGet, hne]
  | cons p rest ih =>
    by_cases hp : p.1 = k
    · subst hp
      simp only [mapSet, if_pos rfl, mapGet, ih]
      simp [hne]
    · simp only [mapSet, if_neg hp, mapGet]
      by_cases hp' : p.1 = k' <;> simp [hp', ih]

theorem keysOf_cons (p : String × Value) (m : List (String × Value)) :
    keysOf (p :: m) = p.1 :: keysOf m := rfl

theorem keysOf_mapSet_of_mem (m : List (String × Value)) (k : String) (v : Value)
    (h : k ∈ keysOf m) : keysOf (mapSet m k v) = keysOf m := by
  induction m with
  | nil => simp [keysOf] at h
  | cons p rest ih =>
    by_cases hp : p.1 = k
    · simp [mapSet, hp, keysOf]
    · rw [keysOf_cons] at h
      rcases List.mem_cons.mp h with h | h
      · exact absurd h.symm hp
      · simp only [mapSet, if_neg hp, keysOf_cons, ih h]

theorem keysOf_mapSet_of_not_mem (m : List (String × Value)) (k : String) (v : Value)
    (h : k ∉ keysOf m) : keysOf (mapSet m k v) = keysOf m ++ [k] := by
  induction m with
  | nil => simp [mapSet, keysOf]
  | cons p rest ih =>
    rw [keysOf_cons] at h
    have h1 : ¬ p.1 = k := fun hh => h (hh ▸ List.mem_cons_self _ _)
    have h2 : k ∉ keysOf rest := fun hh => h (List.mem_cons_of_mem _ hh)
    simp only [mapSet, if_neg h1, keysOf_cons, ih h2, List.cons_append]

theorem nodup_keysOf_mapSet (m : List (String × Value)) (k : String) (v : Value)
    (h : (keysOf m).Nodup) : (keysOf (mapSet m k v)).Nodup := by
  by_cases hm : k ∈ keysOf m
  · rwa [keysOf_mapSet_of_mem m k v hm]
  · rw [keysOf_mapSet_of_not_mem m k v hm]
    simp [List.nodup_append, h, hm]

theorem MapEvolved.comp {m₁ m₂ m₃ : List (String × Value)}
    (h₁ : MapEvolved m₁ m₂) (h₂ : MapEvolved m₂ m₃) : MapEvolved m₁ m₃ := by
  induction h₂ with
  | refl => exact h₁
  | set m' k v h ih => exact .set _ _ k v ih

theorem MapEvolved.nodup {m m' : List (String × Value)}
    (h : MapEvolved m m') (hn : (keysOf m).Nodup) : (keysOf m').Nodup := by
  induction h with
  | refl => exact hn
  | set m₂ k v h ih => exact nodup_keysOf_mapSet m₂ k v ih

theorem MapEvolved.mem {m m' : List (String × Value)} {k : String}
    (h : MapEvolved m m') (hk : (mapGet m k).isSome) : (mapGet m' k).isSome := by
  induction h with
  | refl => exact hk
  | set m₂ k' v h ih =>
    by_cases hkk : k = k'
    · subst hkk; simp [mapGet_mapSet_self]
    · rwa [mapGet_mapSet_ne _ _ _ _ hkk]

theorem StExt.refl (st : PState) : StExt st st :=
  ⟨.refl _, List.prefix_refl _, List.prefix_refl _, List.prefix_refl _, List.prefix_refl _⟩

theorem StExt.trans {st₁ st₂ st₃ : PState} (h₁ : StExt st₁ st₂) (h₂ : StExt st₂ st₃) :
    StExt st₁ st₃ :=
  ⟨h₁.1.comp h₂.1, h₁.2.1.trans h₂.2.1, h₁.2.2.1.trans h₂.2.2.1,
    h₁.2.2.2.1.trans h₂.2.2.2.1, h₁.2.2.2.2.trans h₂.2.2.2.2⟩

theorem mapEvolved_set1 (m : List (String × Value)) (k : String) (v : Value) :
    MapEvolved m (mapSet m k v) := .set _ _ _ _ (.refl _)

theorem mapEvolved_set2 (m : List (String × Value)) (k₁ : String) (v₁ : Value)
    (k₂ : String) (v₂ : Value) :
    MapEvolved m (mapSet (mapSet m k₁ v₁) k₂ v₂) :=
  .set _ _ _ _ (mapEvolved_set1 m k₁ v₁)

theorem visitVarDecl_ext {st : PState} {n : String} {init : Option Expr}
    {line : Nat} {lines : List String} {st' : PState}
    (h : visitVarDecl st n init line lines = .ok st') : StExt st st' := by
  unfold visitVarDecl at h
  cases init with
  | none =>
    simp only [bind, Except.bind, pure, Except.pure, declLitPush] at h
    cases h
    refine ⟨?_, ?_, ?_, ?_, ?_⟩ <;>
      first
        | exact mapEvolved_set1 _ _ _
        | exact List.prefix_refl _
        | exact List.prefix_append _ _
  | some e =>
    cases e <;>
      · simp only [bind, Except.bind, pure, Except.pure, declLitPush] at h
        repeat' split at h
        all_goals cases h
        all_goals
          refine ⟨?_, ?_, ?_, ?_, ?_⟩ <;>
            first
              | exact MapEvolved.refl _
              | exact mapEvolved_set1 _ _ _
              | exact mapEvolved_set2 _ _ _ _ _
              | exact List.prefix_refl _
              | exact List.prefix_append _ _

theorem visitAssign_ext {st : PState} {op : String} {lhs rhs : Expr}
    {line : Nat} {lines : List String} {st' : PState}
    (h : visitAssign st op lhs rhs line lines = .ok st') : StExt st st' := by
  unfold visitAssign at h
  simp only [bind, Except.bind, pure, Except.pure] at h
  repeat' split at h
  all_goals cases h
  all_goals
    refine ⟨?_, ?_, ?_, ?_, ?_⟩ <;>
      first
        | exact MapEvolved.refl _
        | exact mapEvolved_set1 _ _ _
        | exact mapEvolved_set2 _ _ _ _ _
        | exact List.prefix_refl _
        | exact List.prefix_append _ _

theorem callConsoleStep_ext {st : PState} {callee : Expr} {args : List Expr}
    {line : Nat} {lines : List String} {st' : PState}
    (h : callConsoleStep st callee args line lines = .ok st') : StExt st st' := by
  unfold callConsoleStep at h
  simp only [bind, Except.bind, pure, Except.pure] at h
  repeat' split at h
  all_goals cases h
  all_goals
    refine ⟨?_, ?_, ?_, ?_, ?_⟩ <;>
      first
        | exact MapEvolved.refl _
        | exact List.prefix_refl _
        | exact List.prefix_append _ _

theorem callPushStep_ext {st : PState} {callee : Expr} {args : List Expr}
    {line : Nat} {lines : List String} {st' : PState}
    (h : callPushStep st callee args line lines = .ok st') : StExt st st' := by
  unfold callPushStep at h
  simp only [bind, Except.bind, pure, Except.pure] at h
  repeat' split at h
  all_goals cases h
  all_goals
    refine ⟨?_, ?_, ?_, ?_, ?_⟩ <;>
      first
        | exact MapEvolved.refl _
        | exact mapEvolved_set1 _ _ _
        | exact List.prefix_refl _
        | exact List.prefix_append _ _

theorem callEventStep_ext (st : PState) (callee : Expr) (args : List Expr) :
    StExt st (callEventStep st callee args) := by
  unfold callEventStep
  split <;>
    exact ⟨.refl _, List.prefix_refl _, List.prefix_refl _, List.prefix_refl _,
      List.prefix_refl _⟩

theorem callDomStep_ext (st : PState) (callee : Expr) (args : List Expr)
    (line : Nat) : StExt st (callDomStep st callee args line) := by
  unfold callDomStep
  repeat' split
  all_goals
    exact ⟨.refl _, List.prefix_refl _, List.prefix_refl _, List.prefix_refl _,
      List.prefix_refl _⟩

theorem callInnerStep_ext (st : PState) (callee : Expr) (line : Nat) :
    StExt st (callInnerStep st callee line) := by
  unfold callInnerStep
  repeat' split
  all_goals
    exact ⟨.refl _, List.prefix_refl _, List.prefix_refl _, List.prefix_refl _,
      List.prefix_refl _⟩

theorem callObjectStep_ext {st : PState} {callee : Expr} {args : List Expr}
    {line : Nat} {lines : List String} {st' : PState}
    (h : callObjectStep st callee args line lines = .ok st') : StExt st st' := by
  unfold callObjectStep at h
  simp only [bind, Except.bind, pure, Except.pure] at h
  repeat' split at h
  all_goals cases h
  all_goals
    refine ⟨?_, ?_, ?_, ?_, ?_⟩ <;>
      first
        | exact MapEvolved.refl _
        | exact mapEvolved_set1 _ _ _
        | exact List.prefix_refl _
        | exact List.prefix_append _ _

theorem visitCall_ext {st : PState} {callee : Expr} {args : List Expr}
    {line : Nat} {lines : List String} {st' : PState}
    (h : visitCall st callee args line lines = .ok st') : StExt st st' := by
  unfold visitCall at h
  rw [ebind_ok] at h
  obtain ⟨st₁, h₁, h⟩ := h
  rw [ebind_ok] at h
  obtain ⟨st₂, h₂, h⟩ := h
  exact ((callConsoleStep_ext h₁).trans (callPushStep_ext h₂)).trans
    (((callEventStep_ext st₂ callee args).trans
      (callDomStep_ext _ callee args line)).trans
      ((callInnerStep_ext _ callee line).trans (callObjectStep_ext h)))

theorem visitCond_ext {st : PState} {t : Expr} {line : Nat}
    {lines : List String} {st' : PState}
    (h : visitCond st t line lines = .ok st') : StExt st st' := by
  unfold visitCond at h
  simp only [bind, Except.bind, pure, Except.pure] at h
  repeat' split at h
  all_goals cases h
  all_goals
    refine ⟨?_, ?_, ?_, ?_, ?_⟩ <;>
      first
        | exact MapEvolved.refl _
        | exact List.prefix_refl _
        | exact List.prefix_append _ _

theorem visitIf_ext {st : PState} {t : Expr} {line : Nat}
    {lines : List String} {st' : PState}
    (h : visitIf st t line lines = .ok st') : StExt st st' := by
  unfold visitIf at h
  simp only [bind, Except.bind, pure, Except.pure] at h
  repeat' split at h
  all_goals cases h
  all_goals
    refine ⟨?_, ?_, ?_, ?_, ?_⟩ <;>
      first
        | exact MapEvolved.refl _
        | exact List.prefix_refl _
        | exact List.prefix_append _ _

mutual

theorem walkExpr_ext (e : Expr) {st st' : PState} {line : Nat} {lines : List String}
    (h : walkExpr st e line lines = .ok st') : StExt st st' := by
  cases e with
  | condE t c a =>
    unfold walkExpr at h
    rw [ebind_ok] at h
    obtain ⟨s₁, h₁, h⟩ := h
    rw [ebind_ok] at h
    obtain ⟨s₂, h₂, h⟩ := h
    rw [ebind_ok] at h
    obtain ⟨s₃, h₃, h⟩ := h
    exact ((visitCond_ext h₁).trans (walkExpr_ext t h₂)).trans
      ((walkExpr_ext c h₃).trans (walkExpr_ext a h))
  | call callee args =>
    unfold walkExpr at h
    rw [ebind_ok] at h
    obtain ⟨s₁, h₁, h⟩ := h
    rw [ebind_ok] at h
    obtain ⟨s₂, h₂, h⟩ := h
    exact ((visitCall_ext h₁).trans (walkExpr_ext callee h₂)).trans
      (walkExprList_ext args h)
  | arrayE elems =>
    unfold walkExpr at h
    exact walkOptList_ext elems h
  | objectE props =>
    unfold walkExpr at h
    exact walkPropList_ext props h
  | unary op a =>
    unfold walkExpr at h
    exact walkExpr_ext a h
  | logical op l r =>
    unfold walkExpr at h
    rw [ebind_ok] at h
    obtain ⟨s₁, h₁, h⟩ := h
    exact (walkExpr_ext l h₁).trans (walkExpr_ext r h)
  | paren inner =>
    unfold walkExpr at h
    exact walkExpr_ext inner h
  | binary op l r =>
    unfold walkExpr at h
    rw [ebind_ok] at h
    obtain ⟨s₁, h₁, h⟩ := h
    exact (walkExpr_ext l h₁).trans (walkExpr_ext r h)
  | member o p =>
    unfold walkExpr at h
    rw [ebind_ok] at h
    obtain ⟨s₁, h₁, h⟩ := h
    exact (walkExpr_ext o h₁).trans (walkExpr_ext p h)
  | ident n => unfold walkExpr at h; cases h; exact StExt.refl _
  | numLit q => unfold walkExpr at h; cases h; exact StExt.refl _
  | strLit s => unfold walkExpr at h; cases h; exact StExt.refl _
  | boolLit b => unfold walkExpr at h; cases h; exact StExt.refl _
  | nullLit => unfold walkExpr at h; cases h; exact StExt.refl _
  | unknown k => unfold walkExpr at h; cases h; exact StExt.refl _

theorem walkExprList_ext (es : List Expr) {st st' : PState} {line : Nat}
    {lines : List String} (h : walkExprList st es line lines = .ok st') :
    StExt st st' := by
  cases es with
  | nil => unfold walkExprList at h; cases h; exact StExt.refl _
  | cons e rest =>
    unfold walkExprList at h
    rw [ebind_ok] at h
    obtain ⟨s₁, h₁, h⟩ := h
    exact (walkExpr_ext e h₁).trans (walkExprList_ext rest h)

theorem walkOptList_ext (es : List (Option Expr)) {st st' : PState} {line : Nat}
    {lines : List String} (h : walkOptList st es line lines = .ok st') :
    StExt st st' := by
  cases es with
  | nil => unfold walkOptList at h; cases h; exact StExt.refl _
  | cons o rest =>
    cases o with
    | none =>
      unfold walkOptList at h
      exact walkOptList_ext rest h
    | some e =>
      unfold walkOptList at h
      rw [ebind_ok] at h
      obtain ⟨s₁, h₁, h⟩ := h
      exact (walkExpr_ext e h₁).trans (walkOptList_ext rest h)

theorem walkPropList_ext (ps : List PropEntry) {st st' : PState} {line : Nat}
    {lines : List String} (h : walkPropList st ps line lines = .ok st') :
    StExt st st' := by
  cases ps with
  | nil => unfold walkPropList at h; cases h; exact StExt.refl _
  | cons p rest =>
    cases p with
    | field key v =>
      unfold walkPropList at h
      rw [ebind_ok] at h
      obtain ⟨s₁, h₁, h⟩ := h
      exact (walkExpr_ext v h₁).trans (walkPropList_ext rest h)
    | spread a =>
      unfold walkPropList at h
      rw [ebind_ok] at h
      obtain ⟨s₁, h₁, h⟩ := h
      exact (walkExpr_ext a h₁).trans (walkPropList_ext rest h)

end

mutual

theorem walkStmt_ext (s : Stmt) {st st' : PState} {lines : List String}
    (h : walkStmt st s lines = .ok st') : StExt st st' := by
  cases s with
  | varDecl n init line =>
    unfold walkStmt at h
    rw [ebind_ok] at h
    obtain ⟨s₁, h₁, h⟩ := h
    cases init with
    | some e => exact (visitVarDecl_ext h₁).trans (walkExpr_ext e h)
    | none => cases h; exact visitVarDecl_ext h₁
  | assign op lhs rhs line =>
    unfold walkStmt at h
    rw [ebind_ok] at h
    obtain ⟨s₁, h₁, h⟩ := h
    rw [ebind_ok] at h
    obtain ⟨s₂, h₂, h⟩ := h
    exact ((visitAssign_ext h₁).trans (walkExpr_ext lhs h₂)).trans
      (walkExpr_ext rhs h)
  | exprStmt e line =>
    unfold walkStmt at h
    exact walkExpr_ext e h
  | ifStmt t c a line =>
    unfold walkStmt at h
    rw [ebind_ok] at h
    obtain ⟨s₁, h₁, h⟩ := h
    rw [ebind_ok] at h
    obtain ⟨s₂, h₂, h⟩ := h
    rw [ebind_ok] at h
    obtain ⟨s₃, h₃, h⟩ := h
    exact ((visitIf_ext h₁).trans (walkExpr_ext t h₂)).trans
      ((walkStmts_ext c h₃).trans (walkStmts_ext a h))

theorem walkStmts_ext (ss : List Stmt) {st st' : PState} {lines : List String}
    (h : walkStmts st ss lines = .ok st') : StExt st st' := by
  cases ss with
  | nil => unfold walkStmts at h; cases h; exact StExt.refl _
  | cons s rest =>
    unfold walkStmts at h
    rw [ebind_ok] at h
    obtain ⟨s₁, h₁, h⟩ := h
    exact (walkStmt_ext s h₁).trans (walkStmts_ext rest h)

end

theorem resolveCallFallback_ok (callee : Expr) (argVals : List Value) :
    ∃ v, resolveCallFallback callee argVals = .ok v := by
  unfold resolveCallFallback
  repeat' split
  all_goals exact ⟨_, rfl⟩

mutual

theorem resolve_ok_of_resolvable (e : Expr) (vals : List (String × Value))
    (line : Nat) (lines : List String) (hs : resolvableE e = true) :
    ∃ v, resolveExpression vals e line lines = .ok v := by
  cases e with
  | arrayE elems =>
    obtain ⟨vs, hvs⟩ := resolveArrayElems_ok_of_resolvable elems vals line lines
      (by simpa [resolvableE] using hs)
    unfold resolveExpression
    simp only [bind, Except.bind, hvs, pure, Except.pure]
    exact ⟨_, rfl⟩
  | objectE props =>
    obtain ⟨fs, hfs⟩ := resolveProps_ok_of_resolvable props vals line lines
      (by simpa [resolvableE] using hs) []
    unfold resolveExpression
    simp only [bind, Except.bind, hfs, pure, Except.pure]
    exact ⟨_, rfl⟩
  | unary op a =>
    obtain ⟨v, hv⟩ := resolve_ok_of_resolvable a vals line lines
      (by simpa [resolvableE] using hs)
    unfold resolveExpression
    simp only [bind, Except.bind, hv, pure, Except.pure]
    repeat' split
    all_goals exact ⟨_, rfl⟩
  | logical op l r =>
    simp only [resolvableE, Bool.and_eq_true] at hs
    obtain ⟨v₁, hv₁⟩ := resolve_ok_of_resolvable l vals line lines hs.1
    obtain ⟨v₂, hv₂⟩ := resolve_ok_of_resolvable r vals line lines hs.2
    unfold resolveExpression
    simp only [bind, Except.bind, hv₁, hv₂, pure, Except.pure]
    repeat' split
    all_goals exact ⟨_, rfl⟩
  | paren inner =>
    obtain ⟨v, hv⟩ := resolve_ok_of_resolvable inner vals line lines
      (by simpa [resolvableE] using hs)
    unfold resolveExpression
    exact ⟨v, hv⟩
  | condE t c a =>
    simp only [resolvableE, Bool.and_eq_true] at hs
    obtain ⟨v₁, hv₁⟩ := resolve_ok_of_resolvable t vals line lines hs.1.1
    obtain ⟨v₂, hv₂⟩ := resolve_ok_of_resolvable c vals line lines hs.1.2
    obtain ⟨v₃, hv₃⟩ := resolve_ok_of_resolvable a vals line lines hs.2
    unfold resolveExpression
    simp only [bind, Except.bind, hv₁, hv₂, hv₃, pure, Except.pure]
    exact ⟨_, rfl⟩
  | binary op l r =>
    simp only [resolvableE, Bool.and_eq_true] at hs
    obtain ⟨v₁, hv₁⟩ := resolve_ok_of_resolvable l vals line lines hs.1
    obtain ⟨v₂, hv₂⟩ := resolve_ok_of_resolvable r vals line lines hs.2
    unfold resolveExpression
    simp only [bind, Except.bind, hv₁, hv₂, pure, Except.pure]
    repeat' split
    all_goals exact ⟨_, rfl⟩
  | member o p =>
    simp only [resolvableE, Bool.and_eq_true] at hs
    obtain ⟨v₁, hv₁⟩ := resolve_ok_of_resolvable o vals line lines hs.1
    obtain ⟨v₂, hv₂⟩ := resolve_ok_of_resolvable p vals line lines hs.2
    unfold resolveExpression
    simp only [bind, Except.bind, hv₁, hv₂, pure, Except.pure]
    repeat' split
    all_goals exact ⟨_, rfl⟩
  | call callee args =>
    simp only [resolvableE, Bool.and_eq_true] at hs
    obtain ⟨vs, hvs⟩ := resolveElems_ok_of_resolvable args vals line lines hs.2
    obtain ⟨w, hw⟩ := resolveCallFallback_ok callee vs
    unfold resolveExpression
    simp only [bind, Except.bind, hvs, pure, Except.pure]
    repeat' split
    all_goals exact ⟨_, by first | rfl | exact hw⟩
  | ident n =>
    unfold resolveExpression
    repeat' split
    all_goals exact ⟨_, rfl⟩
  | numLit q => exact ⟨_, rfl⟩
  | strLit s => exact ⟨_, rfl⟩
  | boolLit b => exact ⟨_, rfl⟩
  | nullLit => exact ⟨_, rfl⟩
  | unknown k => exact ⟨_, rfl⟩

theorem resolveElems_ok_of_resolvable (es : List Expr) (vals : List (String × Value))
    (line : Nat) (lines : List String) (hs : resolvableList es = true) :
    ∃ vs, resolveElems vals es line lines = .ok vs := by
  cases es with
  | nil => exact ⟨[], rfl⟩
  | cons e rest =>
    simp only [resolvableList, Bool.and_eq_true] at hs
    obtain ⟨v, hv⟩ := resolve_ok_of_resolvable e vals line lines hs.1
    obtain ⟨vs, hvs⟩ := resolveElems_ok_of_resolvable rest vals line lines hs.2
    unfold resolveElems
    simp only [bind, Except.bind, hv, hvs, pure, Except.pure]
    exact ⟨_, rfl⟩

theorem resolveArrayElems_ok_of_resolvable (es : List (Option Expr))
    (vals : List (String × Value)) (line : Nat) (lines : List String)
    (hs : resolvableOpts es = true) :
    ∃ vs, resolveArrayElems vals es line lines = .ok vs := by
  cases es with
  | nil => exact ⟨[], rfl⟩
  | cons o rest =>
    cases o with
    | none => simp [resolvableOpts] at hs
    | some e =>
      simp only [resolvableOpts, Bool.and_eq_true] at hs
      obtain ⟨v, hv⟩ := resolve_ok_of_resolvable e vals line lines hs.1
      obtain ⟨vs, hvs⟩ := resolveArrayElems_ok_of_resolvable rest vals line lines hs.2
      cases e <;>
        · unfold resolveArrayElems
          simp only [bind, Except.bind, hv, hvs, pure, Except.pure]
          exact ⟨_, rfl⟩

theorem resolveProps_ok_of_resolvable (ps : List PropEntry)
    (vals : List (String × Value)) (line : Nat) (lines : List String)
    (hs : resolvableProps ps = true) :
    ∀ acc, ∃ fs, resolveProps vals ps line lines acc = .ok fs := by
  cases ps with
  | nil => exact fun acc => ⟨acc, rfl⟩
  | cons p rest =>
    cases p with
    | field key v =>
      intro acc
      simp only [resolvableProps, Bool.and_eq_true] at hs
      obtain ⟨w, hw⟩ := resolve_ok_of_resolvable v vals line lines hs.1
      obtain ⟨fs, hfs⟩ := resolveProps_ok_of_resolvable rest vals line lines hs.2
        (mapSet acc (key.getD "undefined") w)
      unfold resolveProps
      simp only [bind, Except.bind, hw, hfs, pure, Except.pure]
      exact ⟨_, rfl⟩
    | spread a => simp [resolvableProps] at hs

end

theorem declArrayElems_ok (es : List (Option Expr))
    (hs : resolvableOpts es = true) : ∃ vs, declArrayElems es = .ok vs := by
  induction es with
  | nil => exact ⟨[], rfl⟩
  | cons o rest ih =>
    cases o with
    | none => simp [resolvableOpts] at hs
    | some e =>
      simp only [resolvableOpts, Bool.and_eq_true] at hs
      obtain ⟨vs, hvs⟩ := ih hs.2
      cases e <;>
        · unfold declArrayElems
          simp only [bind, Except.bind, hvs, pure, Except.pure]
          exact ⟨_, rfl⟩

theorem visitVarDecl_ok (st : PState) (n : String) (init : Option Expr)
    (line : Nat) (lines : List String)
    (hs : (match init with | some e => resolvableE e | none => true) = true) :
    ∃ st', visitVarDecl st n init line lines = .ok st' := by
  unfold visitVarDecl
  cases init with
  | none =>
    simp only [bind, Except.bind, pure, Except.pure]
    exact ⟨_, rfl⟩
  | some e =>
    obtain ⟨v, hv⟩ := resolve_ok_of_resolvable e st.variableValues line lines hs
    cases e with
    | objectE props =>
      obtain ⟨fs, hfs⟩ := resolveProps_ok_of_resolvable props st.variableValues line
        lines (by simpa [resolvableE] using hs) []
      simp only [bind, Except.bind, pure, Except.pure, hv, hfs]
      exact ⟨_, rfl⟩
    | arrayE elems =>
      obtain ⟨avs, havs⟩ := declArrayElems_ok elems
        (by simpa [resolvableE] using hs)
      simp only [bind, Except.bind, pure, Except.pure, hv, havs]
      exact ⟨_, rfl⟩
    | boolLit b =>
      -- the complex branch re-resolves the literal against the already
      -- updated table; a boolean literal resolves the same either way
      simp only [bind, Except.bind, pure, Except.pure, resolveExpression]
      exact ⟨_, rfl⟩
    | nullLit =>
      simp only [bind, Except.bind, pure, Except.pure, resolveExpression]
      exact ⟨_, rfl⟩
    | _ =>
      simp only [bind, Except.bind, pure, Except.pure, hv]
      repeat' split
      all_goals exact ⟨_, rfl⟩

theorem visitAssign_ok (st : PState) (op : String) (lhs rhs : Expr)
    (line : Nat) (lines : List String) (hs : resolvableE rhs = true) :
    ∃ st', visitAssign st op lhs rhs line lines = .ok st' := by
  obtain ⟨v, hv⟩ := resolve_ok_of_resolvable rhs st.variableValues line lines hs
  unfold visitAssign
  simp only [bind, Except.bind, pure, Except.pure, hv]
  repeat' split
  all_goals exact ⟨_, rfl⟩

theorem callConsoleStep_ok (st : PState) (callee : Expr) (args : List Expr)
    (line : Nat) (lines : List String) (hs : resolvableList args = true) :
    ∃ st', callConsoleStep st callee args line lines = .ok st' := by
  obtain ⟨vs, hvs⟩ := resolveElems_ok_of_resolvable args st.variableValues line lines hs
  unfold callConsoleStep
  simp only [bind, Except.bind, pure, Except.pure, hvs]
  repeat' split
  all_goals exact ⟨_, rfl⟩

theorem callPushStep_ok (st : PState) (callee : Expr) (args : List Expr)
    (line : Nat) (lines : List String) (hs : resolvableList args = true) :
    ∃ st', callPushStep st callee args line lines = .ok st' := by
  obtain ⟨vs, hvs⟩ := resolveElems_ok_of_resolvable args st.variableValues line lines hs
  unfold callPushStep
  simp only [bind, Except.bind, pure, Except.pure, hvs]
  repeat' split
  all_goals exact ⟨_, rfl⟩

theorem callObjectStep_ok (st : PState) (callee : Expr) (args : List Expr)
    (line : Nat) (lines : List String) (hs : resolvableList args = true) :
    ∃ st', callObjectStep st callee args line lines = .ok st' := by
  cases args with
  | nil =>
    unfold callObjectStep
    simp only [bind, Except.bind, pure, Except.pure]
    repeat' split
    all_goals exact ⟨_, rfl⟩
  | cons arg rest =>
    simp only [resolvableList, Bool.and_eq_true] at hs
    obtain ⟨v, hv⟩ := resolve_ok_of_resolvable arg st.variableValues line lines hs.1
    unfold callObjectStep
    simp only [bind, Except.bind, pure, Except.pure, hv]
    repeat' split
    all_goals try exact ⟨_, rfl⟩
    all_goals simp_all
    all_goals exact ⟨_, rfl⟩

theorem visitCall_ok (st : PState) (callee : Expr) (args : List Expr)
    (line : Nat) (lines : List String) (hs : resolvableList args = true) :
    ∃ st', visitCall st callee args line lines = .ok st' := by
  obtain ⟨s₁, h₁⟩ := callConsoleStep_ok st callee args line lines hs
  obtain ⟨s₂, h₂⟩ := callPushStep_ok s₁ callee args line lines hs
  obtain ⟨s₃, h₃⟩ := callObjectStep_ok
    (callInnerStep (callDomStep (callEventStep s₂ callee args) callee args line) callee line)
    callee args line lines hs
  refine ⟨s₃, ?_⟩
  unfold visitCall
  simp only [bind, Except.bind, h₁, h₂, h₃]

theorem visitCond_ok (st : PState) (t : Expr) (line : Nat) (lines : List String)
    (hs : resolvableE t = true) : ∃ st', visitCond st t line lines = .ok st' := by
  unfold visitCond
  cases t with
  | binary op l r =>
    simp only [resolvableE, Bool.and_eq_true] at hs
    obtain ⟨v₁, hv₁⟩ := resolve_ok_of_resolvable l st.variableValues line lines hs.1
    obtain ⟨v₂, hv₂⟩ := resolve_ok_of_resolvable r st.variableValues line lines hs.2
    simp only [leftRight, bind, Except.bind, pure, Except.pure, hv₁, hv₂]
    repeat' split
    all_goals simp_all
    all_goals exact ⟨_, rfl⟩
  | logical op l r =>
    simp only [resolvableE, Bool.and_eq_true] at hs
    obtain ⟨v₁, hv₁⟩ := resolve_ok_of_resolvable l st.variableValues line lines hs.1
    obtain ⟨v₂, hv₂⟩ := resolve_ok_of_resolvable r st.variableValues line lines hs.2
    simp only [leftRight, bind, Except.bind, pure, Except.pure, hv₁, hv₂]
    repeat' split
    all_goals simp_all
    all_goals exact ⟨_, rfl⟩
  | _ => simp only [leftRight]; exact ⟨_, rfl⟩

theorem visitIf_ok (st : PState) (t : Expr) (line : Nat) (lines : List String)
    (hs : resolvableE t = true) : ∃ st', visitIf st t line lines = .ok st' := by
  unfold visitIf
  cases t with
  | binary op l r =>
    simp only [resolvableE, Bool.and_eq_true] at hs
    obtain ⟨v₁, hv₁⟩ := resolve_ok_of_resolvable l st.variableValues line lines hs.1
    obtain ⟨v₂, hv₂⟩ := resolve_ok_of_resolvable r st.variableValues line lines hs.2
    simp only [leftRight, bind, Except.bind, pure, Except.pure, hv₁, hv₂]
    exact ⟨_, rfl⟩
  | logical op l r =>
    simp only [resolvableE, Bool.and_eq_true] at hs
    obtain ⟨v₁, hv₁⟩ := resolve_ok_of_resolvable l st.variableValues line lines hs.1
    obtain ⟨v₂, hv₂⟩ := resolve_ok_of_resolvable r st.variableValues line lines hs.2
    simp only [leftRight, bind, Except.bind, pure, Except.pure, hv₁, hv₂]
    exact ⟨_, rfl⟩
  | _ => simp only [leftRight]; exact ⟨_, rfl⟩

mutual

theorem walkExpr_ok (e : Expr) (st : PState) (line : Nat) (lines : List String)
    (hs : resolvableE e = true) : ∃ st', walkExpr st e line lines = .ok st' := by
  cases e with
  | condE t c a =>
    simp only [resolvableE, Bool.and_eq_true] at hs
    obtain ⟨s₁, h₁⟩ := visitCond_ok st t line lines hs.1.1
    obtain ⟨s₂, h₂⟩ := walkExpr_ok t s₁ line lines hs.1.1
    obtain ⟨s₃, h₃⟩ := walkExpr_ok c s₂ line lines hs.1.2
    obtain ⟨s₄, h₄⟩ := walkExpr_ok a s₃ line lines hs.2
    refine ⟨s₄, ?_⟩
    unfold walkExpr
    simp only [bind, Except.bind, h₁, h₂, h₃, h₄]
  | call callee args =>
    simp only [resolvableE, Bool.and_eq_true] at hs
    obtain ⟨s₁, h₁⟩ := visitCall_ok st callee args line lines hs.2
    obtain ⟨s₂, h₂⟩ := walkExpr_ok callee s₁ line lines hs.1
    obtain ⟨s₃, h₃⟩ := walkExprList_ok args s₂ line lines hs.2
    refine ⟨s₃, ?_⟩
    unfold walkExpr
    simp only [bind, Except.bind, h₁, h₂, h₃]
  | arrayE elems =>
    obtain ⟨s₁, h₁⟩ := walkOptList_ok elems st line lines
      (by simpa [resolvableE] using hs)
    exact ⟨s₁, by unfold walkExpr; exact h₁⟩
  | objectE props =>
    obtain ⟨s₁, h₁⟩ := walkPropList_ok props st line lines
      (by simpa [resolvableE] using hs)
    exact ⟨s₁, by unfold walkExpr; exact h₁⟩
  | unary op a =>
    obtain ⟨s₁, h₁⟩ := walkExpr_ok a st line lines (by simpa [resolvableE] using hs)
    exact ⟨s₁, by unfold walkExpr; exact h₁⟩
  | logical op l r =>
    simp only [resolvableE, Bool.and_eq_true] at hs
    obtain ⟨s₁, h₁⟩ := walkExpr_ok l st line lines hs.1
    obtain ⟨s₂, h₂⟩ := walkExpr_ok r s₁ line lines hs.2
    refine ⟨s₂, ?_⟩
    unfold walkExpr
    simp only [bind, Except.bind, h₁, h₂]
  | paren inner =>
    obtain ⟨s₁, h₁⟩ := walkExpr_ok inner st line lines (by simpa [resolvableE] using hs)
    exact ⟨s₁, by unfold walkExpr; exact h₁⟩
  | binary op l r =>
    simp only [resolvableE, Bool.and_eq_true] at hs
    obtain ⟨s₁, h₁⟩ := walkExpr_ok l st line lines hs.1
    obtain ⟨s₂, h₂⟩ := walkExpr_ok r s₁ line lines hs.2
    refine ⟨s₂, ?_⟩
    unfold walkExpr
    simp only [bind, Except.bind, h₁, h₂]
  | member o p =>
    simp only [resolvableE, Bool.and_eq_true] at hs
    obtain ⟨s₁, h₁⟩ := walkExpr_ok o st line lines hs.1
    obtain ⟨s₂, h₂⟩ := walkExpr_ok p s₁ line lines hs.2
    refine ⟨s₂, ?_⟩
    unfold walkExpr
    simp only [bind, Except.bind, h₁, h₂]
  | ident n => exact ⟨st, rfl⟩
  | numLit q => exact ⟨st, rfl⟩
  | strLit s => exact ⟨st, rfl⟩
  | boolLit b => exact ⟨st, rfl⟩
  | nullLit => exact ⟨st, rfl⟩
  | unknown k => exact ⟨st, rfl⟩

theorem walkExprList_ok (es : List Expr) (st : PState) (line : Nat)
    (lines : List String) (hs : resolvableList es = true) :
    ∃ st', walkExprList st es line lines = .ok st' := by
  cases es with
  | nil => exact ⟨st, rfl⟩
  | cons e rest =>
    simp only [resolvableList, Bool.and_eq_true] at hs
    obtain ⟨s₁, h₁⟩ := walkExpr_ok e st line lines hs.1
    obtain ⟨s₂, h₂⟩ := walkExprList_ok rest s₁ line lines hs.2
    refine ⟨s₂, ?_⟩
    unfold walkExprList
    simp only [bind, Except.bind, h₁, h₂]

theorem walkOptList_ok (es : List (Option Expr)) (st : PState) (line : Nat)
    (lines : List String) (hs : resolvableOpts es = true) :
    ∃ st', walkOptList st es line lines = .ok st' := by
  cases es with
  | nil => exact ⟨st, rfl⟩
  | cons o rest =>
    cases o with
    | none => simp [resolvableOpts] at hs
    | some e =>
      simp only [resolvableOpts, Bool.and_eq_true] at hs
      obtain ⟨s₁, h₁⟩ := walkExpr_ok e st line lines hs.1
      obtain ⟨s₂, h₂⟩ := walkOptList_ok rest s₁ line lines hs.2
      refine ⟨s₂, ?_⟩
      unfold walkOptList
      simp only [bind, Except.bind, h₁, h₂]

theorem walkPropList_ok (ps : List PropEntry) (st : PState) (line : Nat)
    (lines : List String) (hs : resolvableProps ps = true) :
    ∃ st', walkPropList st ps line lines = .ok st' := by
  cases ps with
  | nil => exact ⟨st, rfl⟩
  | cons p rest =>
    cases p with
    | field key v =>
      simp only [resolvableProps, Bool.and_eq_true] at hs
      obtain ⟨s₁, h₁⟩ := walkExpr_ok v st line lines hs.1
      obtain ⟨s₂, h₂⟩ := walkPropList_ok rest s₁ line lines hs.2
      refine ⟨s₂, ?_⟩
      unfold walkPropList
      simp only [bind, Except.bind, h₁, h₂]
    | spread a => simp [resolvableProps] at hs

end

mutual

theorem walkStmt_ok (s : Stmt) (st : PState) (lines : List String)
    (hs : resolvableS s = true) : ∃ st', walkStmt st s lines = .ok st' := by
  cases s with
  | varDecl n init line =>
    obtain ⟨s₁, h₁⟩ := visitVarDecl_ok st n init line lines
      (by simpa [resolvableS] using hs)
    cases init with
    | some e =>
      obtain ⟨s₂, h₂⟩ := walkExpr_ok e s₁ line lines (by simpa [resolvableS] using hs)
      refine ⟨s₂, ?_⟩
      unfold walkStmt
      simp only [bind, Except.bind, h₁, h₂]
    | none =>
      refine ⟨s₁, ?_⟩
      unfold walkStmt
      simp only [bind, Except.bind, h₁, pure, Except.pure]
  | assign op lhs rhs line =>
    simp only [resolvableS, Bool.and_eq_true] at hs
    obtain ⟨s₁, h₁⟩ := visitAssign_ok st op lhs rhs line lines hs.2
    obtain ⟨s₂, h₂⟩ := walkExpr_ok lhs s₁ line lines hs.1
    obtain ⟨s₃, h₃⟩ := walkExpr_ok rhs s₂ line lines hs.2
    refine ⟨s₃, ?_⟩
    unfold walkStmt
    simp only [bind, Except.bind, h₁, h₂, h₃]
  | exprStmt e line =>
    obtain ⟨s₁, h₁⟩ := walkExpr_ok e st line lines (by simpa [resolvableS] using hs)
    exact ⟨s₁, by unfold walkStmt; exact h₁⟩
  | ifStmt t c a line =>
    simp only [resolvableS, Bool.and_eq_true] at hs
    obtain ⟨s₁, h₁⟩ := visitIf_ok st t line lines hs.1.1
    obtain ⟨s₂, h₂⟩ := walkExpr_ok t s₁ line lines hs.1.1
    obtain ⟨s₃, h₃⟩ := walkStmts_ok c s₂ lines hs.1.2
    obtain ⟨s₄, h₄⟩ := walkStmts_ok a s₃ lines hs.2
    refine ⟨s₄, ?_⟩
    unfold walkStmt
    simp only [bind, Except.bind, h₁, h₂, h₃, h₄]

theorem walkStmts_ok (ss : List Stmt) (st : PState) (lines : List String)
    (hs : resolvableSs ss = true) : ∃ st', walkStmts st ss lines = .ok st' := by
  cases ss with
  | nil => exact ⟨st, rfl⟩
  | cons s rest =>
    simp only [resolvableSs, Bool.and_eq_true] at hs
    obtain ⟨s₁, h₁⟩ := walkStmt_ok s st lines hs.1
    obtain ⟨s₂, h₂⟩ := walkStmts_ok rest s₁ lines hs.2
    refine ⟨s₂, ?_⟩
    unfold walkStmts
    simp only [bind, Except.bind, h₁, h₂]

end

theorem foldl_stext {α : Type} (f : PState → α → PState)
    (hf : ∀ st a, StExt st (f st a)) :
    ∀ (l : List α) (st : PState), StExt st (l.foldl f st) := by
  intro l
  induction l with
  | nil => intro st; exact StExt.refl st
  | cons a rest ih => intro st; exact (hf st a).trans (ih (f st a))

theorem parseComments_ext (code : List String) (st : PState) :
    StExt st (parseComments code st) := by
  unfold parseComments
  refine foldl_stext _ (fun st p => ?_) code.enum st
  obtain ⟨i, raw⟩ := p
  dsimp only
  repeat' split
  all_goals
    refine ⟨MapEvolved.refl _, List.prefix_refl _, ?_, List.prefix_refl _,
      List.prefix_refl _⟩
  all_goals
    first
      | exact List.prefix_refl _
      | exact List.prefix_append _ _
      | exact (List.prefix_append _ _).trans (List.prefix_append _ _)
      | exact ((List.prefix_append _ _).trans (List.prefix_append _ _)).trans
          (List.prefix_append _ _)

mutual

theorem walkExpr_inert (e : Expr) (st : PState) (line : Nat) (lines : List String)
    (hi : inertE e = true) : walkExpr st e line lines = .ok st := by
  cases e with
  | condE t c a => simp [inertE] at hi
  | call callee args => simp [inertE] at hi
  | arrayE elems =>
    unfold walkExpr
    exact walkOptList_inert elems st line lines (by simpa [inertE] using hi)
  | objectE props =>
    unfold walkExpr
    exact walkPropList_inert props st line lines (by simpa [inertE] using hi)
  | unary op a =>
    unfold walkExpr
    exact walkExpr_inert a st line lines (by simpa [inertE] using hi)
  | logical op l r =>
    simp only [inertE, Bool.and_eq_true] at hi
    unfold walkExpr
    simp only [bind, Except.bind, walkExpr_inert l st line lines hi.1,
      walkExpr_inert r st line lines hi.2]
  | paren inner =>
    unfold walkExpr
    exact walkExpr_inert inner st line lines (by simpa [inertE] using hi)
  | binary op l r =>
    simp only [inertE, Bool.and_eq_true] at hi
    unfold walkExpr
    simp only [bind, Except.bind, walkExpr_inert l st line lines hi.1,
      walkExpr_inert r st line lines hi.2]
  | member o p =>
    simp only [inertE, Bool.and_eq_true] at hi
    unfold walkExpr
    simp only [bind, Except.bind, walkExpr_inert o st line lines hi.1,
      walkExpr_inert p st line lines hi.2]
  | ident n => rfl
  | numLit q => rfl
  | strLit s => rfl
  | boolLit b => rfl
  | nullLit => rfl
  | unknown k => rfl

theorem walkExprList_inert (es : List Expr) (st : PState) (line : Nat)
    (lines : List String) (hi : inertList es = true) :
    walkExprList st es line lines = .ok st := by
  cases es with
  | nil => rfl
  | cons e rest =>
    simp only [inertList, Bool.and_eq_true] at hi
    unfold walkExprList
    simp only [bind, Except.bind, walkExpr_inert e st line lines hi.1,
      walkExprList_inert rest st line lines hi.2]

theorem walkOptList_inert (es : List (Option Expr)) (st : PState) (line : Nat)
    (lines : List String) (hi : inertOpts es = true) :
    walkOptList st es line lines = .ok st := by
  cases es with
  | nil => rfl
  | cons o rest =>
    cases o with
    | none =>
      unfold walkOptList
      exact walkOptList_inert rest st line lines (by simpa [inertOpts] using hi)
    | some e =>
      simp only [inertOpts, Bool.and_eq_true] at hi
      unfold walkOptList
      simp only [bind, Except.bind, walkExpr_inert e st line lines hi.1,
        walkOptList_inert rest st line lines hi.2]

theorem walkPropList_inert (ps : List PropEntry) (st : PState) (line : Nat)
    (lines : List String) (hi : inertProps ps = true) :
    walkPropList st ps line lines = .ok st := by
  cases ps with
  | nil => rfl
  | cons p rest =>
    cases p with
    | field key v =>
      simp only [inertProps, Bool.and_eq_true] at hi
      unfold walkPropList
      simp only [bind, Except.bind, walkExpr_inert v st line lines hi.1,
        walkPropList_inert rest st line lines hi.2]
    | spread a =>
      simp only [inertProps, Bool.and_eq_true] at hi
      unfold walkPropList
      simp only [bind, Except.bind, walkExpr_inert a st line lines hi.1,
        walkPropList_inert rest st line lines hi.2]

end

theorem mapSet_mapSet_self (m : List (String × Value)) (k : String) (v w : Value) :
    mapSet (mapSet m k v) k w = mapSet m k w := by
  induction m with
  | nil => simp [mapSet]
  | cons p rest ih =>
    by_cases hp : p.1 = k <;> simp [mapSet, hp, ih]

theorem mapSet_append_of_not_mem (m : List (String × Value)) (k : String)
    (v : Value) (h : k ∉ keysOf m) : mapSet m k v = m ++ [(k, v)] := by
  induction m with
  | nil => simp [mapSet]
  | cons p rest ih =>
    rw [keysOf_cons] at h
    have h1 : ¬ p.1 = k := fun hh => h (hh ▸ List.mem_cons_self _ _)
    have h2 : k ∉ keysOf rest := fun hh => h (List.mem_cons_of_mem _ hh)
    simp [mapSet, h1, ih h2]

theorem walkStmt_litDecl (st : PState) (n : String) (line : Nat)
    (lines : List String) (e : Expr) (v : Value) (he : declLit e = some v) :
    walkStmt st (.varDecl n (some e) line) lines =
      .ok { st with
        «variables» := st.«variables» ++ [⟨n, v⟩],
        variableValues := mapSet st.variableValues n v,
        variableAssignments := st.variableAssignments ++ [.declaration n v line] } := by
  cases e <;> simp only [declLit] at he <;> cases he <;>
    simp [walkStmt, visitVarDecl, walkExpr, resolveExpression, declLitPush,
      bind, Except.bind, pure, Except.pure, mapSet_mapSet_self]

theorem walkStmts_litDecls (ds : List DeclSpec) (lines : List String) :
    ∀ (st : PState), (∀ d ∈ ds, declLit d.init = some d.value) →
    walkStmts st (ds.map DeclSpec.stmt) lines =
      .ok { st with
        «variables» := st.«variables» ++ ds.map (fun d => ⟨d.name, d.value⟩),
        variableValues := ds.foldl (fun m d => mapSet m d.name d.value) st.variableValues,
        variableAssignments := st.variableAssignments ++
          ds.map (fun d => .declaration d.name d.value d.line) } := by
  induction ds with
  | nil => intro st _; simp [walkStmts, pure, Except.pure]
  | cons d rest ih =>
    intro st h
    have hd := h d (List.mem_cons_self _ _)
    have hrest : ∀ d' ∈ rest, declLit d'.init = some d'.value :=
      fun d' hm => h d' (List.mem_cons_of_mem _ hm)
    rw [List.map_cons]
    unfold walkStmts
    simp only [DeclSpec.stmt]
    rw [walkStmt_litDecl st d.name d.line lines d.init d.value hd]
    simp only [bind, Except.bind]
    rw [ih _ hrest]
    simp [List.append_assoc]

theorem foldl_mapSet_fresh (ds : List DeclSpec) :
    ∀ (m : List (String × Value)), (∀ d ∈ ds, d.name ∉ keysOf m) →
    (ds.map DeclSpec.name).Nodup →
    ds.foldl (fun m d => mapSet m d.name d.value) m =
      m ++ ds.map (fun d => (d.name, d.value)) := by
  induction ds with
  | nil => intro m _ _; simp
  | cons d rest ih =>
    intro m hfresh hnd
    have hd : d.name ∉ keysOf m := hfresh d (List.mem_cons_self _ _)
    simp only [List.foldl_cons, List.map_cons]
    rw [mapSet_append_of_not_mem m d.name d.value hd]
    rw [ih (m ++ [(d.name, d.value)]) ?_ ?_]
    · simp
    · intro d' hm
      have h1 : d'.name ∉ keysOf m := hfresh d' (List.mem_cons_of_mem _ hm)
      have h2 : d'.name ≠ d.name := by
        simp only [List.map_cons, List.nodup_cons] at hnd
        intro hh
        exact hnd.1 (hh ▸ List.mem_map_of_mem DeclSpec.name hm)
      simp [keysOf, h2]
      intro v hv
      exact h1 (by simpa [keysOf] using List.mem_map_of_mem Prod.fst hv)
    · simp only [List.map_cons, List.nodup_cons] at hnd
      exact hnd.2

theorem varView_map_mkVariableTest (l : List (String × Value)) :
    varView (l.map mkVariableTest) = l := by
  induction l with
  | nil => rfl
  | cons p rest ih => simp [varView, mkVariableTest, List.filterMap_cons] at ih ⊢; exact ih

theorem varView_map_other {α : Type} (f : α → TestSpec)
    (hf : ∀ a n v d, f a ≠ .variableTest d n v) (l : List α) :
    varView (l.map f) = [] := by
  induction l with
  | nil => rfl
  | cons a rest ih =>
    simp only [List.map_cons, varView, List.filterMap_cons] at ih ⊢
    have : (match f a with
      | .variableTest _ n v => some (n, v)
      | _ => none) = (none : Option (String × Value)) := by
      cases hfa : f a <;> first | rfl | exact absurd hfa (hf _ _ _ _)
    rw [this]
    exact ih

theorem varView_append (l₁ l₂ : List TestSpec) :
    varView (l₁ ++ l₂) = varView l₁ ++ varView l₂ := by
  simp [varView, List.filterMap_append]

theorem varView_mkCommentTests (c : CommentFact) :
    varView (mkCommentTests c) = [] := by
  unfold mkCommentTests
  repeat' split
  all_goals rfl

theorem varView_flatten_comments (l : List CommentFact) :
    varView ((l.map mkCommentTests).flatten) = [] := by
  induction l with
  | nil => rfl
  | cons c rest ih =>
    simp only [List.map_cons, List.flatten_cons, varView_append,
      varView_mkCommentTests, List.nil_append]
    exact ih

theorem varView_generateTests (st : PState) :
    varView (generateTests st) = st.variableValues := by
  unfold generateTests
  dsimp only
  split
  case isTrue h =>
    simp only [List.isEmpty_iff, List.append_eq_nil, List.map_eq_nil_iff] at h
    rw [h.1.1.1.1.1.1.1.1]
    rfl
  case isFalse h =>
    simp only [varView_append, varView_map_mkVariableTest,
      varView_flatten_comments,
      varView_map_other mkConditionTest (by intro a n v d hh; simp [mkConditionTest] at hh),
      varView_map_other mkObjectTest (by intro a n v d hh; cases a <;> simp [mkObjectTest] at hh),
      varView_map_other mkOutputTest (by intro a n v d hh; simp [mkOutputTest] at hh),
      varView_map_other mkEventTest (by intro a n v d hh; simp [mkEventTest] at hh),
      varView_map_other mkFunctionTest (by intro a n v d hh; simp [mkFunctionTest] at hh),
      varView_map_other mkDomTest (by intro a n v d hh; cases a <;> simp [mkDomTest] at hh),
      varView_map_other mkLoopTest (by intro a n v d hh; simp [mkLoopTest] at hh),
      List.append_nil]

theorem testKind_mkCommentTests (c : CommentFact) :
    (mkCommentTests c).map testKind = (commentKindOf c).toList := by
  unfold mkCommentTests commentKindOf
  repeat' split
  all_goals simp_all [testKind]

theorem testKind_flatten_comments (l : List CommentFact) :
    ((l.map mkCommentTests).flatten).map testKind = l.filterMap commentKindOf := by
  induction l with
  | nil => rfl
  | cons c rest ih =>
    simp only [List.map_cons, List.flatten_cons, List.map_append,
      testKind_mkCommentTests, List.filterMap_cons]
    cases h : commentKindOf c <;> simp [h, ih]

theorem testKind_preIf (st : PState) :
    (st.variableValues.map mkVariableTest ++ st.conditions.map mkConditionTest ++
      st.objects.map mkObjectTest ++ st.outputs.map mkOutputTest ++
      st.events.map mkEventTest ++ st.functions.map mkFunctionTest ++
      st.domManipulations.map mkDomTest ++ st.loops.map mkLoopTest ++
      (st.commentedCode.map mkCommentTests).flatten).map testKind =
    expectedKinds st := by
  have e1 : st.variableValues.map (testKind ∘ mkVariableTest) =
      st.variableValues.map (fun _ => "variable") :=
    List.map_congr_left fun p _ => rfl
  have e2 : st.conditions.map (testKind ∘ mkConditionTest) =
      st.conditions.map (fun _ => "condition") :=
    List.map_congr_left fun c _ => rfl
  have e3 : st.objects.map (testKind ∘ mkObjectTest) =
      st.objects.map (fun _ => "object") :=
    List.map_congr_left fun o _ => by cases o <;> rfl
  have e4 : st.outputs.map (testKind ∘ mkOutputTest) =
      st.outputs.map (fun _ => "output") :=
    List.map_congr_left fun o _ => rfl
  have e5 : st.events.map (testKind ∘ mkEventTest) =
      st.events.map (fun _ => "event") :=
    List.map_congr_left fun e _ => rfl
  have e6 : st.functions.map (testKind ∘ mkFunctionTest) =
      st.functions.map (fun _ => "function") :=
    List.map_congr_left fun f _ => rfl
  have e7 : st.domManipulations.map (testKind ∘ mkDomTest) =
      st.domManipulations.map (fun _ => "dom_structure") :=
    List.map_congr_left fun d _ => by cases d <;> rfl
  have e8 : st.loops.map (testKind ∘ mkLoopTest) =
      st.loops.map (fun _ => "loop") :=
    List.map_congr_left fun l _ => rfl
  simp only [List.map_append, List.map_map, e1, e2, e3, e4, e5, e6, e7, e8,
    testKind_flatten_comments, expectedKinds]

theorem walkStmts_append (ss₁ ss₂ : List Stmt) :
    ∀ (st : PState) (lines : List String),
    walkStmts st (ss₁ ++ ss₂) lines =
      walkStmts st ss₁ lines >>= fun st' => walkStmts st' ss₂ lines := by
  induction ss₁ with
  | nil =>
    intro st lines
    simp only [List.nil_append]
    rfl
  | cons s rest ih =>
    intro st lines
    simp only [List.cons_append]
    unfold walkStmts
    cases h : walkStmt st s lines with
    | error e => simp [bind, Except.bind]
    | ok st₁ =>
      simp only [bind, Except.bind, ih st₁ lines]
      cases walkStmts st₁ rest lines with
      | error e => rfl
      | ok v => show walkStmts v ss₂ lines = _; rw [walkStmts.eq_def]; cases ss₂ <;> simp [bind, Except.bind]

theorem filter_key_nil (m : List (String × Value)) (k : String)
    (h : k ∉ keysOf m) : m.filter (fun p => p.1 == k) = [] := by
  induction m with
  | nil => rfl
  | cons p rest ih =>
    rw [keysOf_cons] at h
    have h1 : ¬ p.1 = k := fun hh => h (hh ▸ List.mem_cons_self _ _)
    have h2 : k ∉ keysOf rest := fun hh => h (List.mem_cons_of_mem _ hh)
    simp [List.filter_cons, h1, ih h2]

theorem filter_mapSet_self (m : List (String × Value)) (k : String) (v : Value)
    (h : (keysOf m).Nodup) :
    (mapSet m k v).filter (fun p => p.1 == k) = [(k, v)] := by
  induction m with
  | nil => simp [mapSet]
  | cons p rest ih =>
    rw [keysOf_cons, List.nodup_cons] at h
    by_cases hp : p.1 = k
    · subst hp
      simp only [mapSet, if_pos rfl]
      simp [List.filter_cons, filter_key_nil rest p.1 h.1]
    · simp only [mapSet, if_neg hp]
      simp [List.filter_cons, hp, ih h.2]

/-- Claim C2, counterexample: `resolveExpression` DOES throw, in two node
shapes.  On an object literal containing a spread property, the source's
`prop.key.name` access throws a `TypeError`, so resolving `{...o}` aborts;
and on a sparse array literal `[1, , 2]` the `elements.map` callback reads
`el.type` on the `null` hole element and throws a `TypeError`, so
resolution aborts instead of degrading to null or a placeholder. -/
theorem claim_C2_counterexample :
    resolveExpression [] (.objectE [.spread (.ident "o")]) 0 [] =
      .error (.typeError "Cannot read properties of undefined (reading 'name')") ∧
    resolveExpression []
        (.arrayE [some (.numLit 1), none, some (.numLit 2)]) 0 [] =
      .error (.typeError "Cannot read properties of null (reading 'type')") :=
  ⟨rfl, rfl⟩

/-- Claim C2, amended: for every expression whose object literals contain
no spread property and whose array literals contain no hole,
`resolveExpression` never throws, and a node kind the resolver does not
recognize resolves to null (the tree walk continues). -/
theorem claim_C2_amended :
    (∀ (vals : List (String × Value)) (e : Expr) (line : Nat)
        (lines : List String),
      resolvableE e = true → ∃ v, resolveExpression vals e line lines = .ok v) ∧
    (∀ (vals : List (String × Value)) (k : String) (line : Nat)
        (lines : List String),
      resolveExpression vals (.unknown k) line lines = .ok .null) :=
  ⟨fun vals e line lines hs => resolve_ok_of_resolvable e vals line lines hs,
   fun _ _ _ _ => rfl⟩

/-- Claim C2, witness for the amended theorem at a concrete expression. -/
theorem claim_C2_amended_witness :
    resolvableE (.binary "+" (.strLit "Total: ") (.numLit 5)) = true ∧
    (∃ v, resolveExpression [] (.binary "+" (.strLit "Total: ") (.numLit 5)) 0 []
      = .ok v) :=
  ⟨rfl, claim_C2_amended.1 [] (.binary "+" (.strLit "Total: ") (.numLit 5)) 0 [] rfl⟩

/-- Claim C3, counterexample: a syntax error is NOT the only condition
producing zero specifications.  A syntactically VALID source whose object
literal contains a spread property aborts the whole analysis with a
runtime `TypeError` (not a parse error), and so does a valid source whose
array literal contains a hole (`var a = [1, , 2];`, on whose `null`
element the declaration visitor's resolution reads `el.type`). -/
theorem claim_C3_counterexample :
    parse initialState
      ⟨["var x = \x7b...o\x7d;"],
        .ok [.varDecl "x" (some (.objectE [.spread (.ident "o")])) 1]⟩ =
      .error (.runtime (.typeError
        "Cannot read properties of undefined (reading 'name')")) ∧
    (Source.ast ⟨["var x = \x7b...o\x7d;"],
        .ok [.varDecl "x" (some (.objectE [.spread (.ident "o")])) 1]⟩).isOk
      = true ∧
    parse initialState
      ⟨["var a = [1, , 2];"],
        .ok [.varDecl "a"
          (some (.arrayE [some (.numLit 1), none, some (.numLit 2)])) 1]⟩ =
      .error (.runtime (.typeError
        "Cannot read properties of null (reading 'type')")) ∧
    (Source.ast ⟨["var a = [1, , 2];"],
        .ok [.varDecl "a"
          (some (.arrayE [some (.numLit 1), none, some (.numLit 2)])) 1]⟩).isOk
      = true :=
  ⟨rfl, rfl, rfl, rfl⟩

/-- Claim C3, amended: a parse failure propagates as a structured error
with no partial facts handed to the caller, and every syntactically valid
source WITHOUT spread properties in object literals and WITHOUT holes in
array literals yields best-effort specifications without error. -/
theorem claim_C3_amended :
    (∀ (st : PState) (src : Source) (e : ParseError),
      src.ast = .error e → parse st src = .error (.parseFailure e)) ∧
    (∀ (st : PState) (src : Source) (prog : List Stmt),
      src.ast = .ok prog → resolvableSs prog = true →
      ∃ out, parse st src = .ok out) := by
  constructor
  · intro st src e h
    unfold parse
    rw [h]
  · intro st src prog h hs
    obtain ⟨st', h'⟩ := walkStmts_ok prog (parseComments src.lines st) src.lines hs
    unfold parse
    dsimp only
    rw [h]
    dsimp only
    rw [h']
    exact ⟨_, rfl⟩

/-- Claim C3, witness for the amended theorem at a concrete
(empty, spread-free) source. -/
theorem claim_C3_amended_witness :
    ∃ out, parse initialState ⟨[], .ok []⟩ = .ok out :=
  claim_C3_amended.2 initialState ⟨[], .ok []⟩ [] rfl rfl

/-- Claim C5: for `console.log(x); var x = 5;` the Output fact carries the
empty string, and in general an identifier whose function-scoped `var`
declaration occurs textually after the current line resolves to the empty
string even when the binding table holds a value for it. -/
theorem claim_C5 :
    ((parse initialState
        ⟨["console.log(x);", "var x = 5;"],
          .ok [.exprStmt (.call (.member (.ident "console") (.ident "log"))
                 [.ident "x"]) 1,
               .varDecl "x" (some (.numLit 5)) 2]⟩).toOption.map
      fun r => r.2.outputs) = some [""] ∧
    (∀ (vals : List (String × Value)) (n : String) (line : Nat)
        (lines : List String) (v : Value),
      isVariableHoistedInCode n line lines = true →
      mapGet vals n = some v →
      resolveExpression vals (.ident n) line lines = .ok (.str "")) := by
  refine ⟨rfl, ?_⟩
  intro vals n line lines v h₁ h₂
  unfold resolveExpression
  rw [if_pos h₁]
  rfl

/-- Claim C5, witness for the hoisting conjunct at the claim's concrete
source. -/
theorem claim_C5_witness :
    resolveExpression [("x", .num 5)] (.ident "x") 1
      ["console.log(x);", "var x = 5;"] = .ok (.str "") :=
  claim_C5.2 [("x", .num 5)] "x" 1 ["console.log(x);", "var x = 5;"]
    (.num 5) (by decide) rfl

/-- Claim C6, counterexample: resolving `typeof undefinedVar` for a
never-assigned variable yields `"string"`, not `"undefined"` — the
identifier falls back to its own name (a string) before `typeof` maps
it. -/
theorem claim_C6_counterexample :
    resolveExpression [] (.unary "typeof" (.ident "undefinedVar")) 0 [] =
      .ok (.str "string") ∧
    "string" ≠ "undefined" :=
  ⟨rfl, by decide⟩

/-- Claim C6, amended: `typeof null` resolves to `"object"`; `typeof`
applied to a never-assigned (and not hoisted) variable resolves to
`"string"`, because the identifier resolves to its own name. -/
theorem claim_C6_amended :
    (∀ (vals : List (String × Value)) (n : String) (line : Nat)
        (lines : List String),
      isVariableHoistedInCode n line lines = false →
      mapGet vals n = none →
      resolveExpression vals (.unary "typeof" (.ident n)) line lines =
        .ok (.str "string")) ∧
    (∀ (vals : List (String × Value)) (line : Nat) (lines : List String),
      resolveExpression vals (.unary "typeof" .nullLit) line lines =
        .ok (.str "object")) := by
  constructor
  · intro vals n line lines h₁ h₂
    simp [resolveExpression, h₁, h₂, bind, Except.bind, pure, Except.pure]
  · intro vals line lines
    rfl

/-- Claim C6, witness for the amended theorem at a concrete
never-assigned variable. -/
theorem claim_C6_amended_witness :
    resolveExpression [] (.unary "typeof" (.ident "undefinedVar")) 0 [] =
      .ok (.str "string") ∧
    resolveExpression [] (.unary "typeof" .nullLit) 0 [] = .ok (.str "object") :=
  ⟨claim_C6_amended.1 [] "undefinedVar" 0 [] (by decide) rfl,
   claim_C6_amended.2 [] 0 []⟩

/-- Claim C4, counterexample: for `var x = 5; if (x > 3) {}` the recorded
condition fact's left field is the RESOLVED value `5`, not the unresolved
textual name `"x"` — the if-statement visitor resolves both operands. -/
theorem claim_C4_counterexample :
    ((walkStmts initialState
        [.varDecl "x" (some (.numLit 5)) 1,
         .ifStmt (.binary ">" (.ident "x") (.numLit 3)) [] [] 2]
        ["var x = 5;", "if (x > 3) \x7b\x7d"]).toOption.map
      fun st => st.conditions) =
      some [⟨Value.num 5, some ">", Value.num 3⟩] ∧
    Value.num 5 ≠ Value.str "x" :=
  ⟨rfl, fun h => Value.noConfusion h⟩

/-- Claim C4, amended: only the TERNARY visitor keeps an identifier
operand's textual name unresolved, and it does so for identifiers on
EITHER side (a non-identifier operand is resolved): a left identifier is
recorded as its name next to the resolved right operand, two identifiers
are recorded as their two names, and a right identifier is recorded as its
name next to the resolved left operand.  The if-statement visitor records
both operands RESOLVED.  Both visitors record the comparison operator. -/
theorem claim_C4_amended :
    (∀ (st : PState) (op : String) (n : String) (r : Expr) (line : Nat)
        (lines : List String) (rv : Value),
      exprName r = none →
      resolveExpression st.variableValues r line lines = .ok rv →
      visitCond st (.binary op (.ident n) r) line lines =
        .ok { st with conditions := st.conditions ++ [⟨.str n, some op, rv⟩] }) ∧
    (∀ (st : PState) (op : String) (n m : String) (line : Nat)
        (lines : List String),
      visitCond st (.binary op (.ident n) (.ident m)) line lines =
        .ok { st with
          conditions := st.conditions ++ [⟨.str n, some op, .str m⟩] }) ∧
    (∀ (st : PState) (op : String) (l : Expr) (m : String) (line : Nat)
        (lines : List String) (lv : Value),
      exprName l = none →
      resolveExpression st.variableValues l line lines = .ok lv →
      visitCond st (.binary op l (.ident m)) line lines =
        .ok { st with
          conditions := st.conditions ++ [⟨lv, some op, .str m⟩] }) ∧
    (∀ (st : PState) (op : String) (l r : Expr) (line : Nat)
        (lines : List String) (lv rv : Value),
      resolveExpression st.variableValues l line lines = .ok lv →
      resolveExpression st.variableValues r line lines = .ok rv →
      visitIf st (.binary op l r) line lines =
        .ok { st with conditions := st.conditions ++ [⟨lv, some op, rv⟩] }) := by
  refine ⟨?_, ?_, ?_, ?_⟩
  · intro st op n r line lines rv h hrv
    have hco : condOperator (Expr.binary op (.ident n) r) = some op := by
      simp [condOperator, exprOperator, extractOperator]
    cases r <;> try (simp [exprName] at h)
    all_goals
      unfold visitCond
    all_goals
      simp only [leftRight, bind, Except.bind, pure, Except.pure, hrv, hco]
  · intro st op n m line lines
    have hco : condOperator (Expr.binary op (.ident n) (.ident m)) = some op := by
      simp [condOperator, exprOperator, extractOperator]
    unfold visitCond
    simp only [leftRight, bind, Except.bind, pure, Except.pure, hco]
  · intro st op l m line lines lv h hl
    have hco : condOperator (Expr.binary op l (.ident m)) = some op := by
      simp [condOperator, exprOperator, extractOperator]
    cases l <;> try (simp [exprName] at h)
    all_goals
      unfold visitCond
    all_goals
      simp only [leftRight, bind, Except.bind, pure, Except.pure, hl, hco]
  · intro st op l r line lines lv rv hl hr
    have hco : condOperator (Expr.binary op l r) = some op := by
      simp [condOperator, exprOperator, extractOperator]
    unfold visitIf
    simp only [leftRight, bind, Except.bind, pure, Except.pure, hl, hr, hco]

/-- Claim C4, witness: on a state binding `x` to `5`, the ternary visitor
still records the textual `"x"` (while the if visitor would resolve it),
and with identifiers on both sides it records both names. -/
theorem claim_C4_amended_witness :
    (visitCond { initialState with variableValues := [("x", Value.num 5)] }
      (.binary ">" (.ident "x") (.numLit 3)) 1 [] =
    .ok { { initialState with variableValues := [("x", Value.num 5)] } with
      conditions :=
        { initialState with variableValues := [("x", Value.num 5)] }.conditions ++
          [⟨.str "x", some ">", Value.num 3⟩] }) ∧
    (visitCond { initialState with variableValues := [("x", Value.num 5)] }
      (.binary "<" (.ident "x") (.ident "y")) 1 [] =
    .ok { { initialState with variableValues := [("x", Value.num 5)] } with
      conditions :=
        { initialState with variableValues := [("x", Value.num 5)] }.conditions ++
          [⟨.str "x", some "<", .str "y"⟩] }) :=
  ⟨claim_C4_amended.1 { initialState with variableValues := [("x", Value.num 5)] }
    ">" "x" (.numLit 3) 1 [] (.num 3) rfl rfl,
   claim_C4_amended.2.1 { initialState with variableValues := [("x", Value.num 5)] }
    "<" "x" "y" 1 []⟩

/-- Claim C7, counterexample: the comment-only source `// let x` produces
one commented-code fact, yet the synthesizer emits NO specification for it
(the content fails the declaration-extraction pattern), emitting the
generic placeholder instead — so not every fact maps to exactly one
specification. -/
theorem claim_C7_counterexample :
    ((parse initialState ⟨["// let x"], .ok []⟩).toOption.map
      fun r => (r.2.commentedCode.length, r.2.«structure».map testKind)) =
      some (1, ["generic"]) := rfl

/-- Claim C7, amended: the synthesizer maps each fact to exactly one test
specification in the fixed order Variables (binding-table insertion
order), Conditions, Objects, Outputs, Events, Functions, DomCalls, Loops,
CommentedFacts — EXCEPT that a commented-code fact whose content fails its
extraction pattern yields no specification — and when nothing is produced
it emits exactly one generic manual-validation placeholder. -/
theorem claim_C7_amended (st : PState) :
    (generateTests st).map testKind =
      if expectedKinds st = [] then ["generic"] else expectedKinds st := by
  unfold generateTests
  dsimp only
  split
  case isTrue h =>
    rw [List.isEmpty_iff] at h
    have he : expectedKinds st = [] := by
      rw [← testKind_preIf st, h]
      rfl
    rw [if_pos he]
    rfl
  case isFalse h =>
    rw [List.isEmpty_iff] at h
    have hne : expectedKinds st ≠ [] := by
      rw [← testKind_preIf st]
      intro hh
      exact h (List.map_eq_nil_iff.mp hh)
    rw [if_neg hne, ← testKind_preIf st]

/-- Claim C8, counterexample: for `x = ""; x += "a"` the final value of
`x` is `"0a"`, not `"a"` — the visitor replaces the falsy current value
`""` by `0` (via `get(name) || 0`) before applying `+`, instead of
applying the arithmetic to the table's current value. -/
theorem claim_C8_counterexample :
    ((walkStmts initialState
        [.assign "=" (.ident "x") (.strLit "") 1,
         .assign "+=" (.ident "x") (.strLit "a") 2] []).toOption.map
      fun st => mapGet st.variableValues "x") = some (some (.str "0a")) ∧
    jsAdd (.str "") (.str "a") = .str "a" ∧
    Value.str "0a" ≠ Value.str "a" := by
  refine ⟨rfl, rfl, fun h => ?_⟩
  injection h with h'
  exact absurd h' (by decide)

/-- Claim C8, amended: the compound operators `+=`, `-=`, `*=`, `/=`
apply the corresponding raw JavaScript arithmetic to the table's current
value IF that value is present and truthy — a falsy or absent current
value is first replaced by `0` — any other compound operator stores the
right-hand value unchanged, and `x = 5; x += 3` still ends with `x`
resolving to `8`. -/
theorem claim_C8_amended :
    (∀ (st : PState) (op : String) (n : String) (r : Expr) (line : Nat)
        (lines : List String) (rv : Value),
      op ≠ "=" →
      resolveExpression st.variableValues r line lines = .ok rv →
      visitAssign st op (.ident n) r line lines =
        .ok { st with
          variableAssignments := st.variableAssignments ++
            [.compoundAssignment n
              (amendedCompound op (fallbackZero (mapGet st.variableValues n)) rv)
              op line],
          variableValues := mapSet st.variableValues n
            (amendedCompound op (fallbackZero (mapGet st.variableValues n)) rv) }) ∧
    (((walkStmts initialState
        [.assign "=" (.ident "x") (.numLit 5) 1,
         .assign "+=" (.ident "x") (.numLit 3) 2] []).toOption.map
      fun st => mapGet st.variableValues "x") = some (some (.num (5 + 3))) ∧
      (5 + 3 : ℚ) = 8) := by
  constructor
  · intro st op n r line lines rv hop hrv
    unfold visitAssign
    simp only [bind, Except.bind, pure, Except.pure, hrv]
    rw [if_pos hop]
    by_cases h1 : op = "+="
    · subst h1; simp [amendedCompound, fallbackZero]
    by_cases h2 : op = "-="
    · subst h2; simp [amendedCompound, fallbackZero]
    by_cases h3 : op = "*="
    · subst h3; simp [amendedCompound, fallbackZero]
    by_cases h4 : op = "/="
    · subst h4; simp [amendedCompound, fallbackZero]
    simp [amendedCompound, fallbackZero, h1, h2, h3, h4]
  · exact ⟨rfl, by norm_num⟩

/-- Claim C8, witness for the amended compound-assignment rule at
`x = 5; x += 3`. -/
theorem claim_C8_amended_witness :
    visitAssign { initialState with variableValues := [("x", Value.num 5)] }
      "+=" (.ident "x") (.numLit 3) 2 [] =
    .ok { { initialState with variableValues := [("x", Value.num 5)] } with
      variableAssignments :=
        { initialState with
          variableValues := [("x", Value.num 5)] }.variableAssignments ++
          [.compoundAssignment "x"
            (amendedCompound "+="
              (fallbackZero (mapGet { initialState with
                variableValues := [("x", Value.num 5)] }.variableValues "x"))
              (Value.num 3)) "+=" 2],
      variableValues :=
        mapSet { initialState with
            variableValues := [("x", Value.num 5)] }.variableValues "x"
          (amendedCompound "+="
            (fallbackZero (mapGet { initialState with
              variableValues := [("x", Value.num 5)] }.variableValues "x"))
            (Value.num 3)) } :=
  claim_C8_amended.1 { initialState with variableValues := [("x", Value.num 5)] }
    "+=" "x" (.numLit 3) 2 [] (.num 3) (by decide) rfl

/-- Claim C9, counterexample: `parse` does NOT construct fresh state — the
constructor does.  Parsing `var y = 2;` on an instance that already parsed
`var x = 1;` yields variable specifications for both `x` and `y`, while a
freshly constructed instance yields only `y`. -/
theorem claim_C9_counterexample :
    ((parse initialState
        ⟨["var x = 1;"], .ok [.varDecl "x" (some (.numLit 1)) 1]⟩).toOption.bind
      fun r₁ =>
        (parse r₁.1
          ⟨["var y = 2;"], .ok [.varDecl "y" (some (.numLit 2)) 1]⟩).toOption.map
          fun r₂ => (varView r₂.2.«structure»).map Prod.fst) = some ["x", "y"] ∧
    ((parse initialState
        ⟨["var y = 2;"], .ok [.varDecl "y" (some (.numLit 2)) 1]⟩).toOption.map
      fun r₂ => (varView r₂.2.«structure»).map Prod.fst) = some ["y"] ∧
    (["x", "y"] : List String) ≠ ["y"] :=
  ⟨rfl, rfl, by decide⟩

/-- Claim C9, amended: state is fresh per INSTANCE construction, not per
`parse` invocation — a `parse` call on a used instance extends the
instance's existing facts (the prior output, commented-code, variable and
condition facts are a prefix of the result's, and every previously bound
table key stays bound); results therefore coincide with a fresh instance's
only when each invocation constructs a new parser, as the repository's
callers do. -/
theorem claim_C9_amended :
    ∀ (st : PState) (src : Source) (st₂ : PState) (r : ParseResult),
      parse st src = .ok (st₂, r) →
      st.outputs <+: r.outputs ∧
      st.commentedCode <+: r.commentedCode ∧
      st.«variables» <+: r.«variables» ∧
      st.conditions <+: r.conditions ∧
      ∀ k, (mapGet st.variableValues k).isSome →
        (mapGet st₂.variableValues k).isSome := by
  intro st src st₂ r h
  unfold parse at h
  dsimp only at h
  cases hast : src.ast with
  | error e => rw [hast] at h; cases h
  | ok prog =>
    rw [hast] at h
    dsimp only at h
    cases hw : walkStmts (parseComments src.lines st) prog src.lines with
    | error e => rw [hw] at h; cases h
    | ok stw =>
      rw [hw] at h
      injection h with h'
      cases h'
      have hx := (parseComments_ext src.lines st).trans (walkStmts_ext prog hw)
      exact ⟨hx.2.1, hx.2.2.1, hx.2.2.2.1, hx.2.2.2.2, fun k hk => hx.1.mem hk⟩

/-- Claim C9, witness for the amended theorem at a concrete empty
source. -/
theorem claim_C9_amended_witness :
    initialState.outputs <+:
      (ParseResult.mk [] [] [] [] [] [] [] [] [] []
        [.genericTest "No clear logic detected; manual validation needed."]).outputs :=
  (claim_C9_amended initialState ⟨[], .ok []⟩ initialState
    (ParseResult.mk [] [] [] [] [] [] [] [] [] []
      [.genericTest "No clear logic detected; manual validation needed."]) rfl).1

/-- Claim C10: the member-expression resolver resolves the property as an
expression BEFORE the `.length` special cases, so when the program binds a
variable named `length` (to a present, truthy-or-not, non-`"length"`
value), member access `.length` on a string or on an array uses the
variable's table value: the result is the dotted fallback string, no
longer the length. -/
theorem claim_C10 :
    ∀ (vals : List (String × Value)) (line : Nat) (lines : List String)
      (v : Value),
      mapGet vals "length" = some v → v ≠ .undef → v ≠ .str "length" →
      isVariableHoistedInCode "length" line lines = false →
      (∀ s : String,
        resolveExpression vals (.member (.strLit s) (.ident "length")) line lines =
          .ok (.str (s ++ "." ++ jsToString v)) ∧
        Value.str (s ++ "." ++ jsToString v) ≠ .num s.length) ∧
      (∀ (oe : Expr) (vs : List Value),
        resolveExpression vals oe line lines = .ok (.arr vs) →
        resolveExpression vals (.member oe (.ident "length")) line lines =
          .ok (.str (jsToString (.arr vs) ++ "." ++ jsToString v)) ∧
        Value.str (jsToString (.arr vs) ++ "." ++ jsToString v) ≠ .num vs.length) := by
  intro vals line lines v hget hvund hvlen hh
  have hident : resolveExpression vals (.ident "length") line lines = .ok v := by
    unfold resolveExpression
    rw [if_neg (by simp [hh])]
    rw [hget]
    cases v
    case undef => exact absurd rfl hvund
    all_goals rfl
  constructor
  · intro s
    constructor
    · rw [resolveExpression.eq_def]
      simp only [bind, Except.bind, pure, Except.pure, hident]
      have hs : resolveExpression vals (.strLit s) line lines = .ok (.str s) := rfl
      rw [hs]
      cases v with
      | str pn =>
        have hpn : ¬ pn = "length" := fun hpe => hvlen (by rw [hpe])
        simp [hpn, jsToString]
      | undef => exact absurd rfl hvund
      | _ => rfl
    · exact fun hcontra => Value.noConfusion hcontra
  · intro oe vs hoe
    constructor
    · rw [resolveExpression.eq_def]
      simp only [bind, Except.bind, pure, Except.pure, hident, hoe]
      cases v with
      | str pn =>
        have hpn : ¬ pn = "length" := fun hpe => hvlen (by rw [hpe])
        simp [hpn, jsToString]
      | undef => exact absurd rfl hvund
      | _ => rfl
    · exact fun hcontra => Value.noConfusion hcontra

/-- Claim C10, witness at a concrete binding `length = 5` and the
receiver `"abc"`. -/
theorem claim_C10_witness :
    resolveExpression [("length", Value.num 5)]
      (.member (.strLit "abc") (.ident "length")) 3 [] =
      .ok (.str ("abc" ++ "." ++ jsToString (Value.num 5))) :=
  ((claim_C10 [("length", Value.num 5)] 3 [] (Value.num 5) rfl
    (fun h => Value.noConfusion h) (fun h => Value.noConfusion h)
    (by decide)).1 "abc").1

/-- Claim C1, counterexample: the program `var o = { a: 1 }; Object.keys(o);`
declares exactly one variable and contains no reassignment, yet the
synthesizer emits TWO variable test specifications — the `Object.keys`
call stores its result in the binding table under the synthetic key
`Object.keys(o)`, which the variable sweep then also reports. -/
theorem claim_C1_counterexample :
    declaredNames
      [.varDecl "o" (some (.objectE [.field (some "a") (.numLit 1)])) 1,
       .exprStmt (.call (.member (.ident "Object") (.ident "keys")) [.ident "o"]) 2]
      = ["o"] ∧
    assignCount
      [.varDecl "o" (some (.objectE [.field (some "a") (.numLit 1)])) 1,
       .exprStmt (.call (.member (.ident "Object") (.ident "keys")) [.ident "o"]) 2]
      = 0 ∧
    ((walkStmts initialState
        [.varDecl "o" (some (.objectE [.field (some "a") (.numLit 1)])) 1,
         .exprStmt (.call (.member (.ident "Object") (.ident "keys")) [.ident "o"]) 2]
        ["var o = \x7b a: 1 \x7d;", "Object.keys(o);"]).toOption.map
      fun st => (varView (generateTests st)).map Prod.fst) =
      some ["o", "Object.keys(o)"] :=
  ⟨rfl, rfl, rfl⟩

/-- Claim C1, amended: for declaration-only programs with literal
initializers and pairwise distinct names, the synthesizer emits exactly
one variable specification per declaration, in order, carrying exactly the
literal initializer value; and appending a (visit-inert) reassignment of a
name to any successfully walked program yields exactly one variable
specification for that name, carrying the value the last assignment
resolved to.  (Programs that invoke `Object.keys`/`Object.values` on a
resolved object additionally store synthetic binding-table entries, which
surface as extra variable specifications — see the counterexample.) -/
theorem claim_C1_amended :
    (∀ (ds : List DeclSpec) (lines : List String),
      (∀ d ∈ ds, declLit d.init = some d.value) →
      (ds.map DeclSpec.name).Nodup →
      ∃ st, walkStmts initialState (ds.map DeclSpec.stmt) lines = .ok st ∧
        varView (generateTests st) = ds.map fun d => (d.name, d.value)) ∧
    (∀ (prog : List Stmt) (lines : List String) (st : PState) (n : String)
        (r : Expr) (line : Nat) (v : Value),
      walkStmts initialState prog lines = .ok st →
      inertE r = true →
      resolveExpression st.variableValues r line lines = .ok v →
      ∃ st₂,
        walkStmts initialState (prog ++ [.assign "=" (.ident n) r line]) lines =
          .ok st₂ ∧
        (varView (generateTests st₂)).filter (fun p => p.1 == n) = [(n, v)]) := by
  constructor
  · intro ds lines hlit hnd
    refine ⟨_, walkStmts_litDecls ds lines initialState hlit, ?_⟩
    rw [varView_generateTests]
    show List.foldl _ initialState.variableValues ds = _
    rw [foldl_mapSet_fresh ds initialState.variableValues
      (fun d _ => by simp [initialState, keysOf]) hnd]
    simp [initialState]
  · intro prog lines st n r line v hw hin hrv
    have hassign : visitAssign st "=" (.ident n) r line lines =
        .ok { st with
          variableAssignments := st.variableAssignments ++ [.reassignment n v line],
          variableValues := mapSet st.variableValues n v } := by
      unfold visitAssign
      simp only [bind, Except.bind, pure, Except.pure, hrv]
      rw [if_neg (by simp)]
    have hstep : walkStmt st (.assign "=" (.ident n) r line) lines =
        .ok { st with
          variableAssignments := st.variableAssignments ++ [.reassignment n v line],
          variableValues := mapSet st.variableValues n v } := by
      unfold walkStmt
      simp only [bind, Except.bind, hassign]
      rw [walkExpr_inert (.ident n) _ line lines rfl]
      exact walkExpr_inert r _ line lines hin
    have hnodup : (keysOf st.variableValues).Nodup := by
      have hx := walkStmts_ext prog hw
      exact hx.1.nodup (by simp [initialState, keysOf])
    refine ⟨{ st with
        variableAssignments := st.variableAssignments ++ [.reassignment n v line],
        variableValues := mapSet st.variableValues n v }, ?_, ?_⟩
    · rw [walkStmts_append prog [.assign "=" (.ident n) r line] initialState lines, hw]
      show walkStmts st [.assign "=" (.ident n) r line] lines = _
      unfold walkStmts
      rw [hstep]
      rfl
    · rw [varView_generateTests]
      exact filter_mapSet_self st.variableValues n v hnodup

/-- Claim C1, witness for the declaration-only conjunct at a concrete
two-declaration program. -/
theorem claim_C1_amended_witness :
    ∃ st, walkStmts initialState
        ([⟨"x", .numLit 5, .num 5, 1⟩,
          ⟨"s", .strLit "hi", .str "hi", 2⟩].map DeclSpec.stmt) [] = .ok st ∧
      varView (generateTests st) =
        [⟨"x", .numLit 5, Value.num 5, 1⟩,
         (⟨"s", .strLit "hi", .str "hi", 2⟩ : DeclSpec)].map
          fun d => (d.name, d.value) :=
  claim_C1_amended.1
    [⟨"x", .numLit 5, .num 5, 1⟩, ⟨"s", .strLit "hi", .str "hi", 2⟩] []
    (fun d hd => by fin_cases hd <;> rfl) (by decide)
